import Mathlib

namespace PlatformSDK

/-!
Verification of the platforms-sdk control plane (the managed `Platform` layer
with tenants, workers, bundles, hostname routes and templates).

The definitions below are a shallow embedding of the TypeScript source:

* TS objects with optional fields become structures with `Option` fields;
  `Record<string, string>` maps become association lists with first-match
  lookup, and the JS object-spread merge becomes `jsMerge` (right operand
  wins per key).
* `async` storage methods on the KV-backed stores become pure state-passing
  functions on `PlatformState`; each store is an association list keyed the
  way the storage layer keys it.
* The opaque external collaborators (the esbuild-based bundler behind
  `buildWorker`, the worker loader, the outbound fetcher, the file hasher of
  the playground front-end) are universally quantified function parameters:
  nothing about them is assumed beyond what the source assumes.
* JS exceptions become `Except PlatformError`; operations that mutate state
  before throwing return the mutated state next to the error, exactly as the
  thrown-through mutations persist in the source.
-/

/-! ## Association-list maps (the embedding of JS `Map` / KV stores) -/

/-- First-match lookup in an association list. -/
def alookup {κ α : Type} [DecidableEq κ] : List (κ × α) → κ → Option α
  | [], _ => none
  | (k', v) :: rest, k => if k' = k then some v else alookup rest k

/-- Remove every binding of a key (JS `Map.delete` / `kv.delete`). -/
def aremove {κ α : Type} [DecidableEq κ] : List (κ × α) → κ → List (κ × α)
  | [], _ => []
  | (k', v) :: rest, k => if k' = k then aremove rest k else (k', v) :: aremove rest k

/-- Overwrite-or-insert a binding (JS `Map.set` / `kv.put`). -/
def aput {κ α : Type} [DecidableEq κ] (m : List (κ × α)) (k : κ) (v : α) : List (κ × α) :=
  (k, v) :: aremove m k

/-! ## JS helpers: object spread over string records, `Set`-based dedup -/

/-- Environment maps (`Record<string, string>`). -/
abbrev EnvMap := List (String × String)

/-- The JS object spread of two records: in the source it is written as a
literal with `a`'s fields followed by `b`'s fields, so `b` wins per key. The
representation puts `b` first because `alookup` takes the first match. -/
def jsMerge (a b : EnvMap) : EnvMap := b ++ a

/-- One step of iterating a JS `Set` constructor: append the element unless
it is already present. -/
def insertUnique {α : Type} [DecidableEq α] (acc : List α) (x : α) : List α :=
  if x ∈ acc then acc else acc ++ [x]

/-- The embedding of the JS expression spreading a `Set` built from a list:
iteration order of a JS `Set` is first-insertion order, so the result is the
list deduplicated keeping first occurrences. -/
def jsSetDedup {α : Type} [DecidableEq α] (l : List α) : List α :=
  l.foldl insertUnique []

/-- Specification-level "dedup preserving first-seen order": keep the head
and drop its later duplicates, recursively. -/
def keepFirsts {α : Type} [DecidableEq α] : List α → List α
  | [] => []
  | x :: xs => x :: keepFirsts (xs.filter (fun y => decide (y ≠ x)))
termination_by l => l.length
decreasing_by
  simp only [List.length_cons]
  exact Nat.lt_succ_of_le (List.length_filter_le _ _)

/-! ## Data model (types.ts) -/

/-- Source files / compiled modules: `Record<string, string>`. -/
abbrev Files := List (String × String)

/-- `TailWorker` is `unknown` in the source: an opaque reference. -/
abbrev TailWorker := String

/-- `WorkerLimits`: both sub-fields optional. -/
structure WorkerLimits where
  cpuMs : Option Nat
  subrequests : Option Nat
deriving DecidableEq, Repr

/-- `WorkerDefaults`: the config bundle shared by the global defaults, tenant
config and worker config levels; every field optional. -/
structure WorkerDefaults where
  env : Option EnvMap
  compatibilityDate : Option String
  compatibilityFlags : Option (List String)
  limits : Option WorkerLimits
  tails : Option (List TailWorker)
deriving DecidableEq, Repr

/-- `TenantConfig extends WorkerDefaults` with an `id`. -/
structure TenantConfig where
  id : String
  env : Option EnvMap
  compatibilityDate : Option String
  compatibilityFlags : Option (List String)
  limits : Option WorkerLimits
  tails : Option (List TailWorker)
deriving DecidableEq, Repr

structure TenantMetadata where
  id : String
  createdAt : String
  updatedAt : String
deriving DecidableEq, Repr

structure TenantRecord where
  metadata : TenantMetadata
  config : TenantConfig
deriving DecidableEq, Repr

/-- `WorkerConfig extends WorkerDefaults` with id, tenantId, files, hostnames. -/
structure WorkerConfig where
  id : String
  tenantId : String
  files : Files
  env : Option EnvMap
  compatibilityDate : Option String
  compatibilityFlags : Option (List String)
  limits : Option WorkerLimits
  tails : Option (List TailWorker)
  hostnames : Option (List String)
deriving DecidableEq, Repr

structure WorkerMetadata where
  id : String
  tenantId : String
  createdAt : String
  updatedAt : String
  version : Nat
deriving DecidableEq, Repr

structure WorkerRecord where
  metadata : WorkerMetadata
  config : WorkerConfig
deriving DecidableEq, Repr

/-- `WorkerBundle`: pre-built artifact stored at `(tenantId, workerId, version)`. -/
structure WorkerBundle where
  mainModule : String
  modules : List (String × String)
  version : Nat
  builtAt : String
deriving DecidableEq, Repr

/-- The result the external bundler (`buildWorker`, C2) returns. Warnings are
advisory and unused by the claims, so they are omitted. -/
structure BuildResult where
  mainModule : String
  modules : List (String × String)
deriving DecidableEq, Repr

structure HostnameRoute where
  hostname : String
  tenantId : String
  workerId : String
deriving DecidableEq, Repr

structure TemplateSlot where
  name : String
  description : String
  default : String
  exampleCode : Option String
deriving DecidableEq, Repr

structure TemplateConfig where
  id : String
  name : String
  description : String
  files : Files
  slots : List TemplateSlot
  defaults : Option WorkerDefaults
deriving DecidableEq, Repr

structure TemplateMetadata where
  id : String
  name : String
  description : String
  slotNames : List String
  createdAt : String
  updatedAt : String
deriving DecidableEq, Repr

structure TemplateRecord where
  metadata : TemplateMetadata
  config : TemplateConfig
deriving DecidableEq, Repr

/-- Loader stubs are opaque handles; the loader itself is a parameter. -/
abbrev WorkerStub := String

/-- The `Platform` instance state: the five stores plus the in-process stub
cache (`Map<string, \x7b version, stub \x7d>` keyed by `tenantId:workerId`). -/
structure PlatformState where
  tenants : List (String × TenantRecord)
  workers : List ((String × String) × WorkerRecord)
  bundles : List ((String × String × Nat) × WorkerBundle)
  hostnames : List (String × HostnameRoute)
  templates : List (String × TemplateRecord)
  stubCache : List (String × (Nat × WorkerStub))
deriving DecidableEq, Repr

/-- The error kinds thrown by the embedded operations. -/
inductive PlatformError where
  | tenantNotFound (id : String)
  | tenantExists (id : String)
  | workerNotFound (tenantId workerId : String)
  | workerExists (tenantId workerId : String)
  | templateNotFound (id : String)
  | hostnameConflict (hostname ownerTenantId ownerWorkerId : String)
  | missingBundle (tenantId workerId : String) (version : Nat)
deriving DecidableEq, Repr

/-! ## Config resolver (`Platform.mergeConfig`) -/

/-- The resolver output: the effective config handed to the loader. -/
structure EffectiveConfig where
  env : EnvMap
  compatibilityDate : String
  compatibilityFlags : List String
  limits : Option WorkerLimits
  tails : List TailWorker
deriving DecidableEq, Repr

/-- JS spread merge of two optional `WorkerLimits` records, per sub-field:
a present right-hand sub-field wins. Spreading `undefined` contributes
nothing. -/
def limitsSpread (a b : Option WorkerLimits) : WorkerLimits :=
  { cpuMs := ((b.bind WorkerLimits.cpuMs).orElse (fun _ => a.bind WorkerLimits.cpuMs))
    subrequests :=
      ((b.bind WorkerLimits.subrequests).orElse (fun _ => a.bind WorkerLimits.subrequests)) }

/-- `Platform.mergeConfig` (part_002, lines 1020-1068): merge global defaults,
tenant config and worker config into the effective config. -/
def mergeConfig (defaults : WorkerDefaults) (tenant : TenantRecord) (worker : WorkerRecord) :
    EffectiveConfig :=
  { env :=
      jsMerge (jsMerge (defaults.env.getD []) (tenant.config.env.getD []))
        (worker.config.env.getD [])
    compatibilityDate :=
      ((worker.config.compatibilityDate.orElse
          (fun _ => tenant.config.compatibilityDate)).orElse
        (fun _ => defaults.compatibilityDate)).getD "2026-01-24"
    compatibilityFlags :=
      jsSetDedup
        ((defaults.compatibilityFlags.getD []) ++ (tenant.config.compatibilityFlags.getD []) ++
          (worker.config.compatibilityFlags.getD []))
    limits :=
      if defaults.limits.isSome || tenant.config.limits.isSome || worker.config.limits.isSome then
        some (limitsSpread (some (limitsSpread defaults.limits tenant.config.limits))
          worker.config.limits)
      else
        none
    tails :=
      (defaults.tails.getD []) ++ (tenant.config.tails.getD []) ++ (worker.config.tails.getD []) }

/-! ## Hostname routing (`Platform.addHostnames` and friends) -/

/-- Does a stored route point to a different worker than `(t, w)`? This is
the conflict test of `addHostnames`. -/
def routeConflicts (r : HostnameRoute) (t w : String) : Prop :=
  r.tenantId ≠ t ∨ r.workerId ≠ w

instance (r : HostnameRoute) (t w : String) : Decidable (routeConflicts r t w) := by
  unfold routeConflicts; infer_instance

/-- The `for (const hostname of hostnames)` loop of `addHostnames`: check
each hostname against the store; a route owned by another worker throws (the
writes made so far persist); otherwise write the forward route. -/
def addHostnamesLoop (t w : String) :
    List String → List (String × HostnameRoute) →
      Except PlatformError Unit × List (String × HostnameRoute)
  | [], routes => (.ok (), routes)
  | h :: rest, routes =>
    match alookup routes h with
    | some r =>
      if routeConflicts r t w then
        (.error (.hostnameConflict h r.tenantId r.workerId), routes)
      else
        addHostnamesLoop t w rest (aput routes h ⟨h, t, w⟩)
    | none => addHostnamesLoop t w rest (aput routes h ⟨h, t, w⟩)

/-- `Platform.addHostnames` (part_002, lines 946-972): verify the worker
exists, run the hostname loop, then update the worker's stored hostname list
with the deduplicated union - but only when the union's length differs from
the stored list's length. -/
def addHostnames (s : PlatformState) (t w : String) (hostnames : List String) :
    Except PlatformError Unit × PlatformState :=
  match alookup s.workers (t, w) with
  | none => (.error (.workerNotFound t w), s)
  | some worker =>
    match addHostnamesLoop t w hostnames s.hostnames with
    | (.error e, routes) => (.error e, { s with hostnames := routes })
    | (.ok _, routes) =>
      let current := worker.config.hostnames.getD []
      let newHostnames := jsSetDedup (current ++ hostnames)
      if newHostnames.length ≠ current.length then
        (.ok (), { s with
          hostnames := routes
          workers := aput s.workers (t, w)
            { worker with config := { worker.config with hostnames := some newHostnames } } })
      else
        (.ok (), { s with hostnames := routes })

/-- `Platform.resolveHostname`. -/
def resolveHostname (s : PlatformState) (hostname : String) : Option HostnameRoute :=
  alookup s.hostnames hostname

/-! ## Worker CRUD -/

/-- `Omit<WorkerConfig, 'tenantId'>`: the config accepted by `createWorker`. -/
structure WorkerConfigInput where
  id : String
  files : Files
  env : Option EnvMap
  compatibilityDate : Option String
  compatibilityFlags : Option (List String)
  limits : Option WorkerLimits
  tails : Option (List TailWorker)
  hostnames : Option (List String)
deriving DecidableEq, Repr

/-- `Platform.createWorker` (part_002, lines 575-623). The external bundler
is the `build` parameter and `now` stands for `new Date().toISOString()`.
Order matters: the bundle is written before the worker record, and hostname
registration runs last (its mutations, like the thrown `ConflictError`,
escape to the caller). -/
def createWorker (build : Files → BuildResult) (now : String) (s : PlatformState)
    (tenantId : String) (config : WorkerConfigInput) :
    Except PlatformError WorkerMetadata × PlatformState :=
  match alookup s.tenants tenantId with
  | none => (.error (.tenantNotFound tenantId), s)
  | some _ =>
    match alookup s.workers (tenantId, config.id) with
    | some _ => (.error (.workerExists tenantId config.id), s)
    | none =>
      let buildResult := build config.files
      let version := 1
      let metadata : WorkerMetadata :=
        { id := config.id, tenantId := tenantId, createdAt := now, updatedAt := now
          version := version }
      let bundle : WorkerBundle :=
        { mainModule := buildResult.mainModule, modules := buildResult.modules
          version := version, builtAt := now }
      let fullConfig : WorkerConfig :=
        { id := config.id, tenantId := tenantId, files := config.files, env := config.env
          compatibilityDate := config.compatibilityDate
          compatibilityFlags := config.compatibilityFlags, limits := config.limits
          tails := config.tails, hostnames := config.hostnames }
      let s1 := { s with bundles := aput s.bundles (tenantId, config.id, version) bundle }
      let s2 := { s1 with
        workers := aput s1.workers (tenantId, config.id) ⟨metadata, fullConfig⟩ }
      if (config.hostnames.getD []).isEmpty then
        (.ok metadata, s2)
      else
        match addHostnames s2 tenantId config.id (config.hostnames.getD []) with
        | (.error e, s3) => (.error e, s3)
        | (.ok _, s3) => (.ok metadata, s3)

/-- A `Partial<Omit<WorkerConfig, 'id' | 'tenantId'>>` update object: a field
is `some` exactly when the update supplies it. -/
structure WorkerConfigUpdate where
  files : Option Files
  env : Option EnvMap
  compatibilityDate : Option String
  compatibilityFlags : Option (List String)
  limits : Option WorkerLimits
  tails : Option (List TailWorker)
  hostnames : Option (List String)
deriving DecidableEq, Repr

/-- Spread of a partial update over an existing optional field
(`\x7b ...existing.config, ...updates \x7d`). -/
def ovr {α : Type} (update existing : Option α) : Option α :=
  update.orElse (fun _ => existing)

/-- `Platform.updateWorker` (part_002, lines 630-674): merge the partial
update over the stored config, rebuild, write the bundle at
`version + 1` before the record, bump the version, invalidate the cache. -/
def updateWorker (build : Files → BuildResult) (now : String) (s : PlatformState)
    (tenantId workerId : String) (updates : WorkerConfigUpdate) :
    Except PlatformError WorkerMetadata × PlatformState :=
  match alookup s.workers (tenantId, workerId) with
  | none => (.error (.workerNotFound tenantId workerId), s)
  | some existing =>
    let config : WorkerConfig :=
      { id := workerId, tenantId := tenantId
        files := updates.files.getD existing.config.files
        env := ovr updates.env existing.config.env
        compatibilityDate := ovr updates.compatibilityDate existing.config.compatibilityDate
        compatibilityFlags := ovr updates.compatibilityFlags existing.config.compatibilityFlags
        limits := ovr updates.limits existing.config.limits
        tails := ovr updates.tails existing.config.tails
        hostnames := ovr updates.hostnames existing.config.hostnames }
    let buildResult := build config.files
    let newVersion := existing.metadata.version + 1
    let metadata : WorkerMetadata :=
      { existing.metadata with updatedAt := now, version := newVersion }
    let bundle : WorkerBundle :=
      { mainModule := buildResult.mainModule, modules := buildResult.modules
        version := newVersion, builtAt := now }
    let s1 := { s with bundles := aput s.bundles (tenantId, workerId, newVersion) bundle }
    let s2 := { s1 with workers := aput s1.workers (tenantId, workerId) ⟨metadata, config⟩ }
    (.ok metadata,
      { s2 with stubCache := aremove s2.stubCache (tenantId ++ ":" ++ workerId) })

/-- `Platform.deleteWorker` (part_002, lines 686-694): drop the cache entry,
delete the worker's hostname routes and all its bundles, then the record. -/
def deleteWorker (s : PlatformState) (t w : String) : Bool × PlatformState :=
  let s1 := { s with
    stubCache := aremove s.stubCache (t ++ ":" ++ w)
    hostnames := s.hostnames.filter
      (fun p => decide (¬(p.2.tenantId = t ∧ p.2.workerId = w)))
    bundles := s.bundles.filter (fun p => decide (¬(p.1.1 = t ∧ p.1.2.1 = w))) }
  ((alookup s1.workers (t, w)).isSome, { s1 with workers := aremove s1.workers (t, w) })

/-- `Platform.deleteTenant` (part_002, lines 548-560): `workers.deleteAll`
removes the tenant's worker records, cached stubs for the tenant are
dropped, then the tenant record is deleted. Nothing else is touched. -/
def deleteTenant (s : PlatformState) (t : String) : Bool × PlatformState :=
  let s1 := { s with
    workers := s.workers.filter (fun p => decide (p.1.1 ≠ t))
    stubCache := s.stubCache.filter (fun p => decide (¬(t ++ ":").isPrefixOf p.1)) }
  ((alookup s1.tenants t).isSome, { s1 with tenants := aremove s1.tenants t })

/-! ## Stub acquisition (`Platform.getStub`) -/

/-- The descriptor returned by a loader cold-start callback. -/
structure LoaderDescriptor where
  mainModule : String
  modules : List (String × String)
  compatibilityDate : String
  compatibilityFlags : List String
  env : EnvMap
  limits : Option WorkerLimits
  globalOutbound : Option String
  tails : List TailWorker
deriving DecidableEq, Repr

/-- Observable outcome of one `getStub` call. `usedLoader` records whether
`loader.get` was invoked; `coldStart` is the cold-start callback handed to
the loader, as a function of the bundle store it will read when it runs. -/
structure GetStubResult where
  outcome : Except PlatformError WorkerStub
  usedLoader : Bool
  loaderName : Option String
  coldStart :
    Option (List ((String × String × Nat) × WorkerBundle) → Except PlatformError LoaderDescriptor)
  cacheAfter : List (String × (Nat × WorkerStub))

/-- Slow path of `getStub`: resolve the effective config, ask the loader for
a stub under the versioned name and store the `(version, stub)` pair. The
callback fetches the pre-built bundle; an absent bundle fails the cold
start. No bundler is in scope here: nothing is rebuilt. -/
def getStubLoad (loader : String → WorkerStub) (outbound : Option String)
    (defaults : WorkerDefaults) (s : PlatformState) (t w : String) (tenant : TenantRecord)
    (worker : WorkerRecord) : GetStubResult :=
  let merged := mergeConfig defaults tenant worker
  let version := worker.metadata.version
  let loaderName := t ++ ":" ++ w ++ ":v" ++ toString version
  let callback := fun (bundles : List ((String × String × Nat) × WorkerBundle)) =>
    match alookup bundles (t, w, version) with
    | none => Except.error (PlatformError.missingBundle t w version)
    | some bundle =>
      Except.ok
        { mainModule := bundle.mainModule, modules := bundle.modules
          compatibilityDate := merged.compatibilityDate
          compatibilityFlags := merged.compatibilityFlags, env := merged.env
          limits := merged.limits, globalOutbound := outbound
          tails := merged.tails : LoaderDescriptor }
  let stub := loader loaderName
  { outcome := .ok stub, usedLoader := true, loaderName := some loaderName
    coldStart := some callback
    cacheAfter := aput s.stubCache (t ++ ":" ++ w) (version, stub) }

/-- `Platform.getStub` (part_002, lines 1076-1128). -/
def getStub (loader : String → WorkerStub) (outbound : Option String)
    (defaults : WorkerDefaults) (s : PlatformState) (t w : String) : GetStubResult :=
  match alookup s.tenants t with
  | none =>
    { outcome := .error (.tenantNotFound t), usedLoader := false, loaderName := none
      coldStart := none, cacheAfter := s.stubCache }
  | some tenant =>
    match alookup s.workers (t, w) with
    | none =>
      { outcome := .error (.workerNotFound t w), usedLoader := false, loaderName := none
        coldStart := none, cacheAfter := s.stubCache }
    | some worker =>
      match alookup s.stubCache (t ++ ":" ++ w) with
      | some cached =>
        if cached.1 = worker.metadata.version then
          { outcome := .ok cached.2, usedLoader := false, loaderName := none
            coldStart := none, cacheAfter := s.stubCache }
        else
          getStubLoad loader outbound defaults s t w tenant worker
      | none => getStubLoad loader outbound defaults s t w tenant worker

/-! ## Ephemeral execution -/

/-- The ad-hoc options of `runEphemeral`. -/
structure EphemeralOptions where
  env : Option EnvMap
  limits : Option WorkerLimits
deriving DecidableEq, Repr

/-- The observable outcome of a successful `runEphemeral`: the resolved
config, the loader name used, and the bundler output. -/
structure EphemeralRun where
  env : EnvMap
  compatibilityDate : String
  compatibilityFlags : List String
  limits : Option WorkerLimits
  tails : List TailWorker
  loaderName : String
  buildResult : BuildResult
deriving DecidableEq, Repr

/-- `Platform.runEphemeral` (part_002, lines 1175-1238). `nowMs` stands for
`Date.now()`. The second component counts bundler invocations: the source
calls `buildWorker` unconditionally once the tenant check passes - there is
no fingerprint lookup and no cache of any kind in this method. -/
def runEphemeral (build : Files → BuildResult) (defaults : WorkerDefaults) (nowMs : Nat)
    (s : PlatformState) (t : String) (files : Files) (opts : EphemeralOptions)
    (buildCount : Nat) : Except PlatformError EphemeralRun × Nat :=
  match alookup s.tenants t with
  | none => (.error (.tenantNotFound t), buildCount)
  | some tenant =>
    let env :=
      jsMerge (jsMerge (defaults.env.getD []) (tenant.config.env.getD [])) (opts.env.getD [])
    let compatibilityDate :=
      ((tenant.config.compatibilityDate.orElse
        (fun _ => defaults.compatibilityDate))).getD "2026-01-24"
    let compatibilityFlags :=
      jsSetDedup
        ((defaults.compatibilityFlags.getD []) ++ (tenant.config.compatibilityFlags.getD []))
    let limits :=
      if defaults.limits.isSome || tenant.config.limits.isSome || opts.limits.isSome then
        some (limitsSpread (some (limitsSpread defaults.limits tenant.config.limits)) opts.limits)
      else
        none
    let tails := (defaults.tails.getD []) ++ (tenant.config.tails.getD [])
    let result := build files
    let loaderName := t ++ ":ephemeral:" ++ toString nowMs
    (.ok
      { env := env, compatibilityDate := compatibilityDate
        compatibilityFlags := compatibilityFlags, limits := limits, tails := tails
        loaderName := loaderName, buildResult := result }, buildCount + 1)

/-- The bundle shape the playground front-end caches in KV. -/
structure EphemeralBundle where
  mainModule : String
  modules : List (String × String)
  builtAt : String
deriving DecidableEq, Repr

/-- Build-info outcome of one `/api/run` call of the example front-end. -/
structure ApiRunResult where
  mainModule : String
  modules : List (String × String)
  cached : Bool
deriving DecidableEq, Repr

/-- The build/cache core of the example front-end's `POST /api/run` handler
(packages/example/src/index.ts, lines 445-485): hash the files, reuse the
KV-cached bundle when present (reported as `cached`), otherwise build once
and store the bundle under the fingerprint key. `hash` abstracts the
SHA-256-prefix `hashFiles`; the 3600 s expiration on the KV write is a
real-time concern not modelled here. The last component counts bundler
invocations. -/
def runApiCached (hash : Files → String) (build : Files → BuildResult) (now : String)
    (kv : List (String × EphemeralBundle)) (files : Files) (buildCount : Nat) :
    ApiRunResult × List (String × EphemeralBundle) × Nat :=
  let cacheKey := "ephemeral-bundle:" ++ hash files
  match alookup kv cacheKey with
  | some b => (⟨b.mainModule, b.modules, true⟩, kv, buildCount)
  | none =>
    let r := build files
    (⟨r.mainModule, r.modules, false⟩, aput kv cacheKey ⟨r.mainModule, r.modules, now⟩,
      buildCount + 1)

/-! ## Template engine (`Platform.interpolateTemplate`)

The source replaces, per slot-value entry, every occurrence of the slot's
double-brace marker via a global-flag `RegExp` built from the un-escaped
slot name: a left-to-right, non-overlapping scan. `splitOnPat` is the
decomposition of the input into the segments between the occurrences that
scan consumes. JS `String.replace` does not insert the replacement
verbatim: the replacement string undergoes dollar-substitution (ECMA-262
`GetSubstitution`, here `dollarSubst`); `jsReplace` is that semantics,
while `replaceAllChars`/`replaceAll` is the plain verbatim replacement the
spec's words describe, kept for comparison. For slot names made of word
characters only (`wordCharsOnly`) the regex the source builds denotes the
literal marker; a name holding regex metacharacters would match more and
is outside this embedding. -/

/-- Left-to-right, non-overlapping global replacement of the nonempty
pattern `p0 :: prest` by `rep` inserted verbatim: the interpolation the
spec's words describe (replace every occurrence with the provided value).
The source's `String.replace` instead dollar-substitutes inside the
replacement; see `jsReplace`. Slot patterns are never empty. -/
def replaceAllChars (p0 : Char) (prest rep : List Char) : List Char → List Char
  | [] => []
  | c :: cs =>
    if (p0 :: prest).isPrefixOf (c :: cs) then
      rep ++ replaceAllChars p0 prest rep (cs.drop prest.length)
    else
      c :: replaceAllChars p0 prest rep cs
termination_by s => s.length
decreasing_by
  · simp only [List.length_cons, List.length_drop]
    omega
  · simp

/-- The decomposition of a string into the segments between the occurrences
of `p0 :: prest` that the left-to-right non-overlapping scan consumes. -/
def splitOnPat (p0 : Char) (prest : List Char) : List Char → List (List Char)
  | [] => [[]]
  | c :: cs =>
    if (p0 :: prest).isPrefixOf (c :: cs) then
      [] :: splitOnPat p0 prest (cs.drop prest.length)
    else
      let r := splitOnPat p0 prest cs
      (c :: r.headD []) :: r.tail
termination_by s => s.length
decreasing_by
  · simp only [List.length_cons, List.length_drop]
    omega
  · simp

/-- Join segments with a separator (the inverse view of `splitOnPat`). -/
def joinSep (sep : List Char) : List (List Char) → List Char
  | [] => []
  | [s] => s
  | s :: t :: rest => s ++ sep ++ joinSep sep (t :: rest)

/-- String-level verbatim global replacement (the spec's reading; compare
`jsReplace`). Slot patterns are never empty; the unreachable empty-pattern
case returns the input unchanged. -/
def replaceAll (s pat rep : String) : String :=
  match pat.data with
  | [] => s
  | p0 :: prest => String.mk (replaceAllChars p0 prest rep.data s.data)

/-- JS `GetSubstitution` for a capture-group-free regex: in the replacement
string, a dollar followed by a dollar inserts a single dollar, followed by
an ampersand inserts the matched text, followed by a backquote (`Char.ofNat
96`) inserts the text before the match, followed by a quote (`Char.ofNat
39`) inserts the text after the match; any other dollar is literal. -/
def dollarSubst (matched before after : List Char) : List Char → List Char
  | [] => []
  | [c] => [c]
  | c :: d :: rest =>
    if c = '$' then
      if d = '$' then '$' :: dollarSubst matched before after rest
      else if d = '&' then matched ++ dollarSubst matched before after rest
      else if d = Char.ofNat 96 then before ++ dollarSubst matched before after rest
      else if d = Char.ofNat 39 then after ++ dollarSubst matched before after rest
      else '$' :: dollarSubst matched before after (d :: rest)
    else c :: dollarSubst matched before after (d :: rest)

/-- Reassemble the segments of `splitOnPat`, substituting the replacement
(after dollar-substitution with the match's surrounding context) for each
consumed occurrence; the first list argument is the original text
preceding the current segment. -/
def jsReplaceSegs (pat rep : List Char) : List Char → List (List Char) → List Char
  | _, [] => []
  | _, [seg] => seg
  | before, seg :: seg2 :: rest =>
    seg ++ dollarSubst pat (before ++ seg) (joinSep pat (seg2 :: rest)) rep ++
      jsReplaceSegs pat rep (before ++ seg ++ pat) (seg2 :: rest)

/-- `String.replace` with a global literal-pattern regex: every occurrence
is consumed left to right and the replacement undergoes
dollar-substitution with the match context. Slot patterns are never empty;
the unreachable empty-pattern case returns the input unchanged. -/
def jsReplace (s pat rep : String) : String :=
  match pat.data with
  | [] => s
  | p0 :: prest =>
    String.mk (jsReplaceSegs (p0 :: prest) rep.data [] (splitOnPat p0 prest s.data))

/-- JS object assignment on an insertion-ordered map: an existing key keeps
its position and takes the new value, a new key is appended. -/
def jsObjPut (m : List (String × String)) (k v : String) : List (String × String) :=
  if (alookup m k).isSome then m.map (fun p => if p.1 = k then (k, v) else p)
  else m ++ [(k, v)]

/-- Names made of word characters only: for such a name the regex the
source builds from the un-escaped slot name denotes the literal
double-brace marker. -/
def wordCharsOnly (n : String) : Bool := n.data.all (fun c => c.isAlphanum || c = '_')

/-- The double-brace slot marker for a slot name. -/
def slotPattern (name : String) : String := "\x7b\x7b" ++ name ++ "\x7d\x7d"

/-- Values provided by the caller for template slots. -/
abbrev TemplateSlotValues := List (String × String)

/-- The `values` object built by `interpolateTemplate`: per declared slot,
in declaration order, assign the caller's value with the slot's default as
fallback (a later slot with the same name overwrites the value, keeping
the first position, as JS object assignment does). -/
def slotEffectiveValues (template : TemplateConfig) (slotValues : TemplateSlotValues) :
    List (String × String) :=
  template.slots.foldl
    (fun m slot => jsObjPut m slot.name ((alookup slotValues slot.name).getD slot.default)) []

/-- `Platform.interpolateTemplate` (part_002, lines 918-937): build the
slot-value object with defaults as fallback, then in every file replace
each slot's marker globally via `String.replace`, entry by entry. -/
def interpolateTemplate (template : TemplateConfig) (slotValues : TemplateSlotValues) : Files :=
  let values := slotEffectiveValues template slotValues
  template.files.map
    (fun p => (p.1, values.foldl (fun acc nv => jsReplace acc (slotPattern nv.1) nv.2) p.2))

/-- `Platform.previewTemplateFiles`. -/
def previewTemplateFiles (template : TemplateConfig) (slots : TemplateSlotValues) : Files :=
  interpolateTemplate template slots

/-- `Partial<Omit<WorkerConfig, 'id' | 'tenantId' | 'files'>>`: the
`overrides` accepted by `createWorkerFromTemplate`. -/
structure TemplateOverrides where
  env : Option EnvMap
  compatibilityDate : Option String
  compatibilityFlags : Option (List String)
  limits : Option WorkerLimits
  tails : Option (List TailWorker)
  hostnames : Option (List String)
deriving DecidableEq, Repr

structure CreateFromTemplateOptions where
  workerId : String
  slots : TemplateSlotValues
  overrides : Option TemplateOverrides
deriving DecidableEq, Repr

/-- The worker config `createWorkerFromTemplate` assembles (part_002,
lines 869-884): only `env` is merged key-by-key (template defaults
overlaid by overrides); date, flags, limits and tails are taken wholesale
from the overrides when present, else wholesale from the template defaults;
`hostnames` comes from the overrides alone (the template defaults record
has no hostnames field). -/
def templateWorkerConfig (template : TemplateConfig) (opts : CreateFromTemplateOptions)
    (files : Files) : WorkerConfigInput :=
  { id := opts.workerId
    files := files
    env := some (jsMerge ((template.defaults.bind WorkerDefaults.env).getD [])
      ((opts.overrides.bind TemplateOverrides.env).getD []))
    compatibilityDate :=
      (opts.overrides.bind TemplateOverrides.compatibilityDate).orElse
        (fun _ => template.defaults.bind WorkerDefaults.compatibilityDate)
    compatibilityFlags :=
      (opts.overrides.bind TemplateOverrides.compatibilityFlags).orElse
        (fun _ => template.defaults.bind WorkerDefaults.compatibilityFlags)
    limits :=
      (opts.overrides.bind TemplateOverrides.limits).orElse
        (fun _ => template.defaults.bind WorkerDefaults.limits)
    tails :=
      (opts.overrides.bind TemplateOverrides.tails).orElse
        (fun _ => template.defaults.bind WorkerDefaults.tails)
    hostnames := opts.overrides.bind TemplateOverrides.hostnames }

/-- `Platform.createWorkerFromTemplate` (part_002, lines 855-888). -/
def createWorkerFromTemplate (build : Files → BuildResult) (now : String) (s : PlatformState)
    (tenantId templateId : String) (opts : CreateFromTemplateOptions) :
    Except PlatformError WorkerMetadata × PlatformState :=
  match alookup s.templates templateId with
  | none => (.error (.templateNotFound templateId), s)
  | some template =>
    let files := interpolateTemplate template.config opts.slots
    createWorker build now s tenantId (templateWorkerConfig template.config opts files)

/-! ## Interleaved write order of `createWorker` / `updateWorker`

Both operations perform exactly two externally visible writes touching the
worker/bundle stores: `bundles.put(tenantId, id, v, bundle)` followed by
`workers.put(tenantId, id, record)` with `record.metadata.version = v`
(`v = 1` for create, `v = existing.version + 1` for update). Each `await`ed
storage write is atomic, but distinct in-flight operations interleave
arbitrarily. `SysState` carries the two stores plus the step sequences of
the in-flight operations; `Reach` spawns operations and executes their
pending steps in program order, in any interleaving. -/

/-- One atomic storage write of `createWorker`/`updateWorker`. -/
inductive WriteStep where
  | writeBundle (t w : String) (v : Nat) (b : WorkerBundle)
  | writeRecord (t w : String) (rec : WorkerRecord)
deriving DecidableEq, Repr

/-- Worker and bundle stores plus in-flight operations' remaining steps. -/
structure SysState where
  workers : List ((String × String) × WorkerRecord)
  bundles : List ((String × String × Nat) × WorkerBundle)
  pending : List (List WriteStep)
deriving DecidableEq, Repr

/-- Apply one atomic write to the stores. -/
def applyStep (s : SysState) : WriteStep → SysState
  | .writeBundle t w v b => { s with bundles := aput s.bundles (t, w, v) b }
  | .writeRecord t w rec => { s with workers := aput s.workers (t, w) rec }

/-- The write sequence of `createWorker`: bundle at version 1, then the
record at version 1 (the two `await`s of part_002, lines 604-615). -/
def createWorkerSteps (now : String) (tenantId : String) (config : WorkerConfigInput)
    (buildResult : BuildResult) : List WriteStep :=
  [.writeBundle tenantId config.id 1
      { mainModule := buildResult.mainModule, modules := buildResult.modules
        version := 1, builtAt := now },
   .writeRecord tenantId config.id
      { metadata :=
          { id := config.id, tenantId := tenantId, createdAt := now, updatedAt := now
            version := 1 }
        config :=
          { id := config.id, tenantId := tenantId, files := config.files, env := config.env
            compatibilityDate := config.compatibilityDate
            compatibilityFlags := config.compatibilityFlags, limits := config.limits
            tails := config.tails, hostnames := config.hostnames } }]

/-- The write sequence of `updateWorker`: bundle at `existing.version + 1`,
then the record at `existing.version + 1` (part_002, lines 659-668). -/
def updateWorkerSteps (now : String) (tenantId workerId : String) (existing : WorkerRecord)
    (config : WorkerConfig) (buildResult : BuildResult) : List WriteStep :=
  [.writeBundle tenantId workerId (existing.metadata.version + 1)
      { mainModule := buildResult.mainModule, modules := buildResult.modules
        version := existing.metadata.version + 1, builtAt := now },
   .writeRecord tenantId workerId
      { metadata :=
          { existing.metadata with updatedAt := now, version := existing.metadata.version + 1 }
        config := config }]

/-- Reachability: start from empty stores; at any time a `createWorker` or
`updateWorker` may be spawned (an update is spawned against the record it
read), and the head step of any in-flight operation may execute. -/
inductive Reach : SysState → Prop where
  | init : Reach ⟨[], [], []⟩
  | spawnCreate (s : SysState) (now tenantId : String) (config : WorkerConfigInput)
      (buildResult : BuildResult) (h : Reach s) :
      Reach { s with pending := createWorkerSteps now tenantId config buildResult :: s.pending }
  | spawnUpdate (s : SysState) (now tenantId workerId : String) (existing : WorkerRecord)
      (config : WorkerConfig) (buildResult : BuildResult) (h : Reach s)
      (hread : alookup s.workers (tenantId, workerId) = some existing) :
      Reach { s with
        pending :=
          updateWorkerSteps now tenantId workerId existing config buildResult :: s.pending }
  | execStep (s : SysState) (pre post : List (List WriteStep)) (st : WriteStep)
      (rest : List WriteStep) (h : Reach s) (hp : s.pending = pre ++ (st :: rest) :: post) :
      Reach { applyStep s st with pending := pre ++ rest :: post }

/-- Bundle coherence of the two stores: every visible worker record has a
bundle stored at its version. -/
def BundleCoherent (workers : List ((String × String) × WorkerRecord))
    (bundles : List ((String × String × Nat) × WorkerBundle)) : Prop :=
  ∀ t w rec, alookup workers (t, w) = some rec →
    (alookup bundles (t, w, rec.metadata.version)).isSome = true

/-- A pending step list is safe w.r.t. a bundle store: executing it in
program order only ever writes records whose bundle is present by then. -/
def StepsSafe (bundles : List ((String × String × Nat) × WorkerBundle)) :
    List WriteStep → Prop
  | [] => True
  | .writeBundle t w v b :: rest => StepsSafe (aput bundles (t, w, v) b) rest
  | .writeRecord t w rec :: rest =>
      (alookup bundles (t, w, rec.metadata.version)).isSome = true ∧ StepsSafe bundles rest

/-- Store growth: every key that resolves keeps resolving. -/
def BundleGrows (b b' : List ((String × String × Nat) × WorkerBundle)) : Prop :=
  ∀ k, (alookup b k).isSome = true → (alookup b' k).isSome = true

/-- The inductive invariant: the stores are coherent and every in-flight
operation's remaining steps are safe. -/
def SysInv (s : SysState) : Prop :=
  BundleCoherent s.workers s.bundles ∧ ∀ op ∈ s.pending, StepsSafe s.bundles op

/-! ## Concrete fixtures used by witnesses and counterexamples -/

/-- A concrete bundler standing in for the external esbuild adapter in
closed executions: deterministic in its input, as §4.2 requires of C2. -/
def buildEx : Files → BuildResult :=
  fun files => { mainModule := "src/index.js", modules := files }

def defaultsEx : WorkerDefaults :=
  { env := some [("A", "1"), ("B", "1")], compatibilityDate := some "2025-01-01"
    compatibilityFlags := some ["a"], limits := some { cpuMs := some 5, subrequests := none }
    tails := some ["tailG"] }

def tenantRecEx : TenantRecord :=
  { metadata := { id := "acme", createdAt := "t0", updatedAt := "t0" }
    config :=
      { id := "acme", env := some [("B", "2"), ("C", "2")], compatibilityDate := none
        compatibilityFlags := some ["b", "a"], limits := none, tails := none } }

def workerConfigEx : WorkerConfig :=
  { id := "api", tenantId := "acme", files := [("src/index.ts", "code")]
    env := some [("C", "3"), ("D", "3")], compatibilityDate := none
    compatibilityFlags := some ["c"], limits := some { cpuMs := none, subrequests := some 7 }
    tails := none, hostnames := none }

def workerRecEx : WorkerRecord :=
  { metadata :=
      { id := "api", tenantId := "acme", createdAt := "t0", updatedAt := "t0", version := 1 }
    config := workerConfigEx }

def bundleEx : WorkerBundle :=
  { mainModule := "src/index.js", modules := [("src/index.ts", "code")], version := 1
    builtAt := "t0" }

/-- State with one tenant (`acme`) and nothing else. -/
def stateTenantOnly : PlatformState :=
  { tenants := [("acme", tenantRecEx)], workers := [], bundles := [], hostnames := []
    templates := [], stubCache := [] }

/-- State with the tenant, the worker `api` at version 1 and its bundle. -/
def stateWithWorker : PlatformState :=
  { stateTenantOnly with
    workers := [(("acme", "api"), workerRecEx)]
    bundles := [(("acme", "api", 1), bundleEx)] }

/-- `stateWithWorker` with a stub cached at the current version. -/
def stateCached : PlatformState :=
  { stateWithWorker with stubCache := [("acme:api", (1, "stub1"))] }

/-- A worker record whose stored hostname list contains a duplicate
(reachable, e.g. via `updateWorker` with `hostnames: ["a", "a"]`). -/
def workerRecDup : WorkerRecord :=
  { workerRecEx with config := { workerConfigEx with hostnames := some ["a", "a"] } }

/-- Tenant, worker with stored hostnames `["a", "a"]`, and the matching
route for `"a"`. -/
def stateDupHostnames : PlatformState :=
  { stateTenantOnly with
    workers := [(("acme", "api"), workerRecDup)]
    hostnames := [("a", { hostname := "a", tenantId := "acme", workerId := "api" })] }

/-- Tenant and worker, plus a route for `h2` owned by another worker. -/
def stateConflict : PlatformState :=
  { stateTenantOnly with
    workers := [(("acme", "api"), workerRecEx)]
    hostnames := [("h2", { hostname := "h2", tenantId := "other", workerId := "api2" })] }

/-- Tenant `acme`, worker `api` with its bundle, and a hostname route owned
by that worker: the input of the `deleteTenant` cascade counterexample. -/
def stateFull : PlatformState :=
  { stateWithWorker with
    hostnames :=
      [("app.acme.com", { hostname := "app.acme.com", tenantId := "acme", workerId := "api" })] }

/-- The `createWorker` input used in closed executions. -/
def cfgInputEx : WorkerConfigInput :=
  { id := "api", files := [("src/index.ts", "code")], env := none, compatibilityDate := none
    compatibilityFlags := none, limits := none, tails := none, hostnames := none }

/-- The spec's seed template: one file `const x={{v}};` with slot `v`
defaulting to `"1"` (braces elided in this comment). -/
def templateEx : TemplateConfig :=
  { id := "tpl", name := "T", description := "d"
    files := [("src/index.ts", "const x=\x7b\x7bv\x7d\x7d;")]
    slots := [{ name := "v", description := "slot v", default := "1", exampleCode := none }]
    defaults := none }

/-- A two-slot template: one file mentioning both markers, slots `x` and
`y` defaulting to `"1"` and `"2"`. -/
def templateTwoSlotsEx : TemplateConfig :=
  { id := "tpl2", name := "T2", description := "d2"
    files := [("src/index.ts", "const a=\x7b\x7bx\x7d\x7d; const b=\x7b\x7by\x7d\x7d;")]
    slots := [{ name := "x", description := "slot x", default := "1", exampleCode := none },
              { name := "y", description := "slot y", default := "2", exampleCode := none }]
    defaults := none }

/-- A template carrying defaults on every config field. -/
def templateWithDefaultsEx : TemplateConfig :=
  { templateEx with
    defaults := some
      { env := some [("E", "tpl"), ("F", "tpl")], compatibilityDate := some "2020-02-02"
        compatibilityFlags := some ["x", "y"], limits := some { cpuMs := some 9, subrequests := none }
        tails := some ["tt"] } }

/-- Overrides supplying `env`, `compatibilityFlags` and `hostnames` only. -/
def overridesEx : TemplateOverrides :=
  { env := some [("F", "ov"), ("G", "ov")], compatibilityDate := none
    compatibilityFlags := some ["z"], limits := none, tails := none
    hostnames := some ["h.example"] }

/-- The record `createWorker` writes for `cfgInputEx` at `now = "t0"`. -/
def c3Rec : WorkerRecord :=
  { metadata :=
      { id := "api", tenantId := "acme", createdAt := "t0", updatedAt := "t0", version := 1 }
    config :=
      { id := "api", tenantId := "acme", files := [("src/index.ts", "code")], env := none
        compatibilityDate := none, compatibilityFlags := none, limits := none, tails := none
        hostnames := none } }

/-- The system state after one `createWorker` ran to completion. -/
def c3Final : SysState :=
  { workers := [(("acme", "api"), c3Rec)]
    bundles :=
      [(("acme", "api", 1),
        { mainModule := "src/index.js", modules := [("src/index.ts", "code")], version := 1
          builtAt := "t0" })]
    pending := [[]] }

/-! ## General lemmas about the embedding -/

theorem alookup_aremove {κ α : Type} [DecidableEq κ] (m : List (κ × α)) (k k' : κ) :
    alookup (aremove m k) k' = if k = k' then none else alookup m k' := by
  induction m with
  | nil => simp [aremove, alookup]
  | cons p rest ih =>
    obtain ⟨pk, pv⟩ := p
    by_cases hp : pk = k
    · subst hp
      by_cases h : pk = k'
      · subst h
        simp [aremove, alookup, ih]
      · simp [aremove, alookup, h, ih]
    · by_cases hp' : pk = k'
      · subst hp'
        simp [aremove, alookup, hp, ih]
        intro h
        exact absurd h.symm hp
      · simp [aremove, alookup, hp, hp', ih]

theorem alookup_aput {κ α : Type} [DecidableEq κ] (m : List (κ × α)) (k k' : κ) (v : α) :
    alookup (aput m k v) k' = if k = k' then some v else alookup m k' := by
  by_cases h : k = k'
  · simp [aput, alookup, h]
  · simp [aput, alookup, h, alookup_aremove]

theorem alookup_aput_self {κ α : Type} [DecidableEq κ] (m : List (κ × α)) (k : κ) (v : α) :
    alookup (aput m k v) k = some v := by
  simp [alookup_aput]

theorem alookup_aput_ne {κ α : Type} [DecidableEq κ] (m : List (κ × α)) (k k' : κ) (v : α)
    (h : k ≠ k') : alookup (aput m k v) k' = alookup m k' := by
  simp [alookup_aput, h]

/-- Lookup across a concatenation: the left list is consulted first. -/
theorem alookup_append {κ α : Type} [DecidableEq κ] (a b : List (κ × α)) (k : κ) :
    alookup (a ++ b) k = (alookup a k).orElse (fun _ => alookup b k) := by
  induction a with
  | nil => simp [alookup, Option.orElse]
  | cons p rest ih =>
    obtain ⟨pk, pv⟩ := p
    by_cases hp : pk = k
    · simp [alookup, hp, Option.orElse]
    · simp [alookup, hp, ih]

theorem alookup_jsMerge (a b : EnvMap) (k : String) :
    alookup (jsMerge a b) k = (alookup b k).orElse (fun _ => alookup a k) := by
  simp [jsMerge, alookup_append]

theorem keepFirsts_nil {α : Type} [DecidableEq α] : keepFirsts ([] : List α) = [] := by
  rw [keepFirsts.eq_def]

theorem keepFirsts_cons {α : Type} [DecidableEq α] (x : α) (xs : List α) :
    keepFirsts (x :: xs) = x :: keepFirsts (xs.filter (fun y => decide (y ≠ x))) := by
  rw [keepFirsts.eq_def]

theorem foldl_insertUnique_eq (acc : List String) (l : List String) :
    l.foldl insertUnique acc = acc ++ keepFirsts (l.filter (fun y => decide (y ∉ acc))) := by
  induction l generalizing acc with
  | nil => simp [keepFirsts_nil]
  | cons x xs ih =>
    by_cases hx : x ∈ acc
    · rw [List.foldl_cons, insertUnique, if_pos hx, List.filter_cons, ih]
      simp [hx]
    · rw [List.foldl_cons, insertUnique, if_neg hx, List.filter_cons]
      simp only [hx, not_false_eq_true, decide_eq_true_eq, if_pos]
      rw [ih, keepFirsts_cons]
      have hfilter :
          (xs.filter (fun y => decide (y ∉ acc))).filter (fun y => decide (y ≠ x)) =
            xs.filter (fun y => decide (y ∉ acc ++ [x])) := by
        rw [List.filter_filter]
        apply List.filter_congr
        intro y _
        simp [And.comm]
      rw [hfilter]
      simp

/-- `jsSetDedup` equals the specification-level first-seen dedup. -/
theorem jsSetDedup_eq_keepFirsts (l : List String) :
    jsSetDedup l = keepFirsts l := by
  have h := foldl_insertUnique_eq [] l
  simpa [jsSetDedup] using h

theorem mem_foldl_insertUnique (acc l : List String) (x : String) :
    x ∈ l.foldl insertUnique acc ↔ x ∈ acc ∨ x ∈ l := by
  induction l generalizing acc with
  | nil => simp
  | cons y ys ih =>
    by_cases hy : y ∈ acc
    · rw [List.foldl_cons, insertUnique, if_pos hy, ih]
      simp only [List.mem_cons]
      constructor
      · rintro (h | h)
        · exact Or.inl h
        · exact Or.inr (Or.inr h)
      · rintro (h | h | h)
        · exact Or.inl h
        · exact Or.inl (h ▸ hy)
        · exact Or.inr h
    · rw [List.foldl_cons, insertUnique, if_neg hy, ih]
      simp only [List.mem_append, List.mem_singleton, List.mem_cons]
      tauto

theorem mem_jsSetDedup (l : List String) (x : String) :
    x ∈ jsSetDedup l ↔ x ∈ l := by
  simp [jsSetDedup, mem_foldl_insertUnique]

theorem length_foldl_insertUnique_mono (acc l : List String) :
    acc.length ≤ (l.foldl insertUnique acc).length := by
  induction l generalizing acc with
  | nil => simp
  | cons y ys ih =>
    refine le_trans ?_ (ih (insertUnique acc y))
    unfold insertUnique
    by_cases hy : y ∈ acc <;> simp [hy]

/-- If folding a list of elements does not change the length, every element
was already present. -/
theorem foldl_insertUnique_length_fixed (acc l : List String)
    (h : (l.foldl insertUnique acc).length = acc.length) :
    ∀ x ∈ l, x ∈ acc := by
  induction l generalizing acc with
  | nil => intro x hx; cases hx
  | cons y ys ih =>
    intro x hx
    by_cases hy : y ∈ acc
    · rcases List.mem_cons.mp hx with rfl | hx'
      · exact hy
      · refine ih acc ?_ x hx'
        rw [List.foldl_cons, insertUnique, if_pos hy] at h
        exact h
    · exfalso
      have hgrew : (insertUnique acc y).length = acc.length + 1 := by
        simp [insertUnique, hy]
      have hmono := length_foldl_insertUnique_mono (insertUnique acc y) ys
      rw [hgrew] at hmono
      rw [List.foldl_cons] at h
      omega

theorem jsSetDedup_of_nodup (l : List String) (h : l.Nodup) : jsSetDedup l = l := by
  rw [jsSetDedup_eq_keepFirsts]
  induction l with
  | nil => exact keepFirsts_nil
  | cons x xs ih =>
    rw [keepFirsts_cons]
    have hx : x ∉ xs := (List.nodup_cons.mp h).1
    have hxs : xs.Nodup := (List.nodup_cons.mp h).2
    have hfe : xs.filter (fun y => decide (y ≠ x)) = xs := by
      apply List.filter_eq_self.mpr
      intro y hy
      simp only [decide_eq_true_eq]
      intro hyx
      exact hx (hyx ▸ hy)
    rw [hfe, ih hxs]

theorem jsSetDedup_append_left (current hs : List String) :
    jsSetDedup (current ++ hs) = hs.foldl insertUnique (jsSetDedup current) := by
  simp [jsSetDedup, List.foldl_append]

theorem splitOnPat_ne_nil (p0 : Char) (prest s : List Char) : splitOnPat p0 prest s ≠ [] := by
  induction s using splitOnPat.induct p0 prest with
  | case1 => rw [splitOnPat.eq_def]; simp
  | case2 c cs h ih =>
    rw [splitOnPat.eq_def]
    simp [h]
  | case3 c cs h ih =>
    rw [splitOnPat.eq_def]
    simp [h]

/-- The global replacement is: split on the pattern, join with the
replacement. -/
theorem replaceAllChars_eq_joinSep (p0 : Char) (prest rep s : List Char) :
    replaceAllChars p0 prest rep s = joinSep rep (splitOnPat p0 prest s) := by
  induction s using splitOnPat.induct p0 prest with
  | case1 =>
    rw [replaceAllChars.eq_def, splitOnPat.eq_def]
    simp [joinSep]
  | case2 c cs h ih =>
    rw [replaceAllChars.eq_def, splitOnPat.eq_def]
    simp only [h, if_pos, ih]
    cases hs : splitOnPat p0 prest (cs.drop prest.length) with
    | nil => exact absurd hs (splitOnPat_ne_nil p0 prest _)
    | cons seg rest => simp [joinSep]
  | case3 c cs h ih =>
    rw [replaceAllChars.eq_def, splitOnPat.eq_def]
    simp only [h, if_neg, ih]
    cases hs : splitOnPat p0 prest cs with
    | nil => exact absurd hs (splitOnPat_ne_nil p0 prest _)
    | cons seg rest =>
      cases rest with
      | nil => simp [joinSep]
      | cons seg2 rest2 => simp [joinSep]

/-- Joining the segments back with the pattern itself reconstructs the
input: the segments really are the text between pattern occurrences. -/
theorem joinSep_splitOnPat (p0 : Char) (prest s : List Char) :
    joinSep (p0 :: prest) (splitOnPat p0 prest s) = s := by
  induction s using splitOnPat.induct p0 prest with
  | case1 =>
    rw [splitOnPat.eq_def]
    simp [joinSep]
  | case2 c cs h ih =>
    rw [splitOnPat.eq_def]
    simp only [h, if_pos]
    obtain ⟨tail, htail⟩ := List.isPrefixOf_iff_prefix.mp h
    have h1 : p0 :: (prest ++ tail) = c :: cs := by simpa using htail
    have hp : p0 = c := by injection h1
    have hcs : prest ++ tail = cs := by injection h1
    subst hp
    subst hcs
    have hdrop : (prest ++ tail).drop prest.length = tail := List.drop_left _ _
    cases hs : splitOnPat p0 prest ((prest ++ tail).drop prest.length) with
    | nil => exact absurd hs (splitOnPat_ne_nil p0 prest _)
    | cons seg rest =>
      rw [hs] at ih
      simp only [joinSep, List.nil_append]
      rw [ih, hdrop]
      simp
  | case3 c cs h ih =>
    rw [splitOnPat.eq_def]
    simp only [h, if_neg]
    cases hs : splitOnPat p0 prest cs with
    | nil => exact absurd hs (splitOnPat_ne_nil p0 prest _)
    | cons seg rest =>
      rw [hs] at ih
      cases rest with
      | nil => simpa [joinSep] using ih
      | cons seg2 rest2 => simpa [joinSep] using ih

/-- A dollar-free replacement is inserted verbatim. -/
theorem dollarSubst_no_dollar (m b a : List Char) :
    ∀ r : List Char, '$' ∉ r → dollarSubst m b a r = r
  | [], _ => rfl
  | [c], _ => rfl
  | c :: d :: rest, h => by
    have hc : c ≠ '$' := fun h1 => h (h1 ▸ List.mem_cons_self _ _)
    have hdr : '$' ∉ d :: rest := fun hm => h (List.mem_cons_of_mem _ hm)
    show (if c = '$' then _ else c :: dollarSubst m b a (d :: rest)) = c :: d :: rest
    rw [if_neg hc, dollarSubst_no_dollar m b a (d :: rest) hdr]

/-- With a dollar-free replacement, the reassembly is a plain join. -/
theorem jsReplaceSegs_no_dollar (pat rep : List Char) (h : '$' ∉ rep) :
    ∀ (before : List Char) (segs : List (List Char)),
      jsReplaceSegs pat rep before segs = joinSep rep segs
  | _, [] => rfl
  | _, [seg] => rfl
  | before, seg :: seg2 :: rest => by
    show seg ++ dollarSubst pat (before ++ seg) (joinSep pat (seg2 :: rest)) rep ++
        jsReplaceSegs pat rep (before ++ seg ++ pat) (seg2 :: rest) =
      seg ++ rep ++ joinSep rep (seg2 :: rest)
    rw [dollarSubst_no_dollar _ _ _ rep h,
      jsReplaceSegs_no_dollar pat rep h (before ++ seg ++ pat) (seg2 :: rest)]

/-- On dollar-free replacements `String.replace` inserts the replacement
verbatim: it coincides with the spec's verbatim reading `replaceAll`. -/
theorem jsReplace_no_dollar (s pat rep : String) (h : '$' ∉ rep.data) :
    jsReplace s pat rep = replaceAll s pat rep := by
  unfold jsReplace replaceAll
  cases hp : pat.data with
  | nil => rfl
  | cons p0 prest =>
    apply congrArg String.mk
    rw [jsReplaceSegs_no_dollar (p0 :: prest) rep.data h [] (splitOnPat p0 prest s.data),
      replaceAllChars_eq_joinSep]

/-- Folding JS object assignment over slots with pairwise distinct names
(none already present) appends the entries in declaration order. -/
theorem foldl_jsObjPut_append (eff : TemplateSlot → String) :
    ∀ (slots : List TemplateSlot) (m : List (String × String)),
      (slots.map TemplateSlot.name).Nodup →
      (∀ slot ∈ slots, alookup m slot.name = none) →
      slots.foldl (fun acc slot => jsObjPut acc slot.name (eff slot)) m =
        m ++ slots.map (fun slot => (slot.name, eff slot))
  | [], m, _, _ => by simp
  | slot :: rest, m, hnd, hdisj => by
    have hm : alookup m slot.name = none := hdisj slot (List.mem_cons_self _ _)
    have hput : jsObjPut m slot.name (eff slot) = m ++ [(slot.name, eff slot)] := by
      unfold jsObjPut
      rw [hm]
      rfl
    simp only [List.map_cons, List.nodup_cons] at hnd
    have hdisj' : ∀ s ∈ rest, alookup (m ++ [(slot.name, eff slot)]) s.name = none := by
      intro s hs
      rw [alookup_append, hdisj s (List.mem_cons_of_mem _ hs)]
      have hne : slot.name ≠ s.name := fun he =>
        hnd.1 (he ▸ List.mem_map_of_mem TemplateSlot.name hs)
      simp [alookup, hne, Option.orElse]
    rw [List.foldl_cons, hput,
      foldl_jsObjPut_append eff rest (m ++ [(slot.name, eff slot)]) hnd.2 hdisj']
    simp

/-- Under pairwise distinct slot names the values object is the per-slot
list of effective values in declaration order. -/
theorem slotEffectiveValues_of_nodup (template : TemplateConfig) (sv : TemplateSlotValues)
    (hnd : (template.slots.map TemplateSlot.name).Nodup) :
    slotEffectiveValues template sv =
      template.slots.map
        (fun slot => (slot.name, (alookup sv slot.name).getD slot.default)) := by
  unfold slotEffectiveValues
  exact (foldl_jsObjPut_append (fun slot => (alookup sv slot.name).getD slot.default)
    template.slots [] hnd (fun _ _ => rfl)).trans (List.nil_append _)

/-- With dollar-free effective values the per-entry `String.replace` fold
is the verbatim-replacement fold over the declared slots. -/
theorem foldl_jsReplace_no_dollar (sv : TemplateSlotValues) :
    ∀ (slots : List TemplateSlot),
      (∀ slot ∈ slots, '$' ∉ ((alookup sv slot.name).getD slot.default).data) →
      ∀ c : String,
        (slots.map (fun slot => (slot.name, (alookup sv slot.name).getD slot.default))).foldl
            (fun acc nv => jsReplace acc (slotPattern nv.1) nv.2) c =
          slots.foldl
            (fun acc slot => replaceAll acc (slotPattern slot.name)
              ((alookup sv slot.name).getD slot.default)) c
  | [], _, c => rfl
  | slot :: rest, h, c => by
    simp only [List.map_cons, List.foldl_cons]
    rw [jsReplace_no_dollar c (slotPattern slot.name) _ (h slot (List.mem_cons_self _ _))]
    exact foldl_jsReplace_no_dollar sv rest (fun s hs => h s (List.mem_cons_of_mem _ hs)) _

theorem bundleGrows_refl (b : List ((String × String × Nat) × WorkerBundle)) :
    BundleGrows b b := fun _ h => h

theorem bundleGrows_aput (b : List ((String × String × Nat) × WorkerBundle))
    (k : String × String × Nat) (v : WorkerBundle) : BundleGrows b (aput b k v) := by
  intro k' h
  rw [alookup_aput]
  by_cases hk : k = k' <;> simp [hk, h]

theorem stepsSafe_mono (b b' : List ((String × String × Nat) × WorkerBundle))
    (hg : BundleGrows b b') (steps : List WriteStep) (hs : StepsSafe b steps) :
    StepsSafe b' steps := by
  induction steps generalizing b b' with
  | nil => trivial
  | cons st rest ih =>
    cases st with
    | writeBundle t w v bundle =>
      simp only [StepsSafe] at hs ⊢
      refine ih (aput b (t, w, v) bundle) (aput b' (t, w, v) bundle) ?_ hs
      intro k hk
      rw [alookup_aput] at hk ⊢
      by_cases hkk : (t, w, v) = k
      · simp [hkk]
      · simp only [hkk, if_false] at hk ⊢
        exact hg k hk
    | writeRecord t w rec =>
      simp only [StepsSafe] at hs ⊢
      exact ⟨hg _ hs.1, ih b b' hg hs.2⟩

theorem reach_sysInv (s : SysState) (h : Reach s) : SysInv s := by
  induction h with
  | init =>
    constructor
    · intro t w rec hrec
      simp [alookup] at hrec
    · intro op hop
      simp at hop
  | spawnCreate s now tenantId config buildResult h ih =>
    obtain ⟨hcoh, hpend⟩ := ih
    refine ⟨hcoh, ?_⟩
    intro op hop
    rcases List.mem_cons.mp hop with rfl | hop'
    · simp only [createWorkerSteps, StepsSafe]
      exact ⟨by simp [alookup_aput_self], trivial⟩
    · exact hpend op hop'
  | spawnUpdate s now tenantId workerId existing config buildResult h hread ih =>
    obtain ⟨hcoh, hpend⟩ := ih
    refine ⟨hcoh, ?_⟩
    intro op hop
    rcases List.mem_cons.mp hop with rfl | hop'
    · simp only [updateWorkerSteps, StepsSafe]
      exact ⟨by simp [alookup_aput_self], trivial⟩
    · exact hpend op hop'
  | execStep s pre post st rest h hp ih =>
    obtain ⟨hcoh, hpend⟩ := ih
    have hrest : StepsSafe s.bundles (st :: rest) := by
      apply hpend
      rw [hp]
      exact List.mem_append.mpr (Or.inr (List.mem_cons.mpr (Or.inl rfl)))
    cases st with
    | writeBundle t w v bundle =>
      simp only [StepsSafe] at hrest
      constructor
      · intro t' w' rec hrec
        simp only [applyStep] at hrec ⊢
        have := hcoh t' w' rec hrec
        exact bundleGrows_aput s.bundles (t, w, v) bundle _ this
      · intro op hop
        simp only [applyStep] at hop ⊢
        rcases List.mem_append.mp hop with hpre | hop'
        · exact stepsSafe_mono _ _ (bundleGrows_aput _ _ _) op
            (hpend op (by rw [hp]; exact List.mem_append.mpr (Or.inl hpre)))
        · rcases List.mem_cons.mp hop' with rfl | hop''
          · exact hrest
          · exact stepsSafe_mono _ _ (bundleGrows_aput _ _ _) op
              (hpend op (by
                rw [hp]
                exact List.mem_append.mpr (Or.inr (List.mem_cons.mpr (Or.inr hop'')))))
    | writeRecord t w rec =>
      simp only [StepsSafe] at hrest
      constructor
      · intro t' w' rec' hrec'
        simp only [applyStep] at hrec' ⊢
        rw [alookup_aput] at hrec'
        by_cases hk : (t, w) = (t', w')
        · simp only [hk, if_pos] at hrec'
          obtain ⟨rfl, rfl⟩ := Prod.mk.injEq .. ▸ hk
          cases hrec'
          exact hrest.1
        · simp only [hk, if_false] at hrec'
          exact hcoh t' w' rec' hrec'
      · intro op hop
        simp only [applyStep] at hop ⊢
        rcases List.mem_append.mp hop with hpre | hop'
        · exact hpend op (by rw [hp]; exact List.mem_append.mpr (Or.inl hpre))
        · rcases List.mem_cons.mp hop' with rfl | hop''
          · exact hrest.2
          · exact hpend op (by
              rw [hp]
              exact List.mem_append.mpr (Or.inr (List.mem_cons.mpr (Or.inr hop''))))

theorem alookup_map_values {κ α β : Type} [DecidableEq κ] (l : List (κ × α)) (f : α → β)
    (k : κ) : alookup (l.map (fun p => (p.1, f p.2))) k = (alookup l k).map f := by
  induction l with
  | nil => simp [alookup]
  | cons p rest ih =>
    by_cases hp : p.1 = k
    · simp [alookup, hp]
    · simp [alookup, hp, ih]

theorem alookup_filter_key {κ α : Type} [DecidableEq κ] (m : List (κ × α)) (q : κ → Bool)
    (k : κ) : alookup (m.filter (fun p => q p.1)) k =
      if q k then alookup m k else none := by
  induction m with
  | nil => simp [alookup]
  | cons p rest ih =>
    by_cases hq : q p.1
    · by_cases hp : p.1 = k
      · subst hp
        simp [List.filter_cons, hq, alookup]
      · simp [List.filter_cons, hq, alookup, hp, ih]
    · by_cases hp : p.1 = k
      · subst hp
        simp only [List.filter_cons, Bool.not_eq_true] at *
        simp [hq, ih, alookup]
      · simp only [List.filter_cons] at *
        simp only [Bool.not_eq_true] at hq
        simp [hq, ih, alookup, hp]

theorem slotPattern_data (name : String) :
    (slotPattern name).data = '\x7b' :: '\x7b' :: (name.data ++ ['\x7d', '\x7d']) := by
  simp [slotPattern, String.data_append]

/-! ## Claim theorems -/

/-- C1: inheritance merge laws of the config resolver `mergeConfig`. For all
platform defaults `d`, tenant record `t` and worker record `w`: per key the
effective env is `worker ?? tenant ?? defaults`; the compatibility date is
the first-defined of worker, tenant, defaults with fallback `"2026-01-24"`;
the flags are the concatenation defaults ++ tenant ++ worker deduplicated
preserving first-seen order (`keepFirsts`); the tails are the plain
concatenation with duplicates preserved (length-preserving); the limits
merge per sub-field with an undefined sub-field inheriting, and are absent
exactly when all three levels leave them absent. -/
theorem mergeConfig_inheritance_laws (d : WorkerDefaults) (t : TenantRecord)
    (w : WorkerRecord) :
    (∀ k, alookup (mergeConfig d t w).env k =
      ((alookup (w.config.env.getD []) k).orElse (fun _ =>
        (alookup (t.config.env.getD []) k).orElse (fun _ =>
          alookup (d.env.getD []) k)))) ∧
    (mergeConfig d t w).compatibilityDate =
      ((w.config.compatibilityDate.orElse (fun _ => t.config.compatibilityDate)).orElse
        (fun _ => d.compatibilityDate)).getD "2026-01-24" ∧
    (mergeConfig d t w).compatibilityFlags =
      keepFirsts (d.compatibilityFlags.getD [] ++ t.config.compatibilityFlags.getD [] ++
        w.config.compatibilityFlags.getD []) ∧
    (mergeConfig d t w).tails =
      d.tails.getD [] ++ t.config.tails.getD [] ++ w.config.tails.getD [] ∧
    (mergeConfig d t w).tails.length =
      (d.tails.getD []).length + (t.config.tails.getD []).length +
        (w.config.tails.getD []).length ∧
    ((mergeConfig d t w).limits = none ↔
      d.limits = none ∧ t.config.limits = none ∧ w.config.limits = none) ∧
    (∀ l, (mergeConfig d t w).limits = some l →
      l.cpuMs = ((w.config.limits.bind WorkerLimits.cpuMs).orElse (fun _ =>
        ((t.config.limits.bind WorkerLimits.cpuMs).orElse (fun _ =>
          d.limits.bind WorkerLimits.cpuMs)))) ∧
      l.subrequests = ((w.config.limits.bind WorkerLimits.subrequests).orElse (fun _ =>
        ((t.config.limits.bind WorkerLimits.subrequests).orElse (fun _ =>
          d.limits.bind WorkerLimits.subrequests))))) := by
  refine ⟨?_, rfl, ?_, rfl, ?_, ?_, ?_⟩
  · intro k
    simp [mergeConfig, alookup_jsMerge]
  · simp [mergeConfig, jsSetDedup_eq_keepFirsts]
  · simp [mergeConfig]
    omega
  · unfold mergeConfig
    rcases d.limits with _ | dl <;> rcases t.config.limits with _ | tl <;>
      rcases w.config.limits with _ | wl <;> simp
  · intro l hl
    unfold mergeConfig at hl
    simp only at hl
    by_cases hc :
        (d.limits.isSome || t.config.limits.isSome || w.config.limits.isSome) = true
    · rw [if_pos hc] at hl
      cases hl
      constructor <;> · simp [limitsSpread, Option.bind]
    · rw [if_neg hc] at hl
      cases hl

/-- Witness for C1: the spec's seed inheritance scenario. The tenant's env
overrides `B`, the worker's overrides `C`; the flags dedup to
`["a", "b", "c"]`; the limits merge has `cpuMs` from the defaults and
`subrequests` from the worker. -/
theorem mergeConfig_inheritance_laws_witness :
    alookup (mergeConfig defaultsEx tenantRecEx workerRecEx).env "B" = some "2" ∧
    alookup (mergeConfig defaultsEx tenantRecEx workerRecEx).env "A" = some "1" ∧
    (mergeConfig defaultsEx tenantRecEx workerRecEx).compatibilityFlags = ["a", "b", "c"] ∧
    (⟨some 5, some 7⟩ : WorkerLimits).cpuMs = some 5 ∧
    (⟨some 5, some 7⟩ : WorkerLimits).subrequests = some 7 := by
  obtain ⟨henv, hdate, hflags, htails, hlen, hnone, hsome⟩ :=
    mergeConfig_inheritance_laws defaultsEx tenantRecEx workerRecEx
  have hl : (mergeConfig defaultsEx tenantRecEx workerRecEx).limits = some ⟨some 5, some 7⟩ := by
    decide
  obtain ⟨hcpu, hsub⟩ := hsome ⟨some 5, some 7⟩ hl
  refine ⟨(henv "B").trans (by decide), (henv "A").trans (by decide),
    hflags.trans ((jsSetDedup_eq_keepFirsts _).symm.trans (by decide)),
    hcpu.trans (by decide), hsub.trans (by decide)⟩

/-- `addHostnames` never changes any worker record's metadata: the only
worker write it can make replaces the config's hostname list. -/
theorem addHostnames_workers_metadata (s : PlatformState) (t w : String) (hs : List String)
    (k : String × String) :
    (alookup (addHostnames s t w hs).2.workers k).map WorkerRecord.metadata =
      (alookup s.workers k).map WorkerRecord.metadata := by
  unfold addHostnames
  cases hw : alookup s.workers (t, w) with
  | none => simp
  | some worker =>
    cases hloop : addHostnamesLoop t w hs s.hostnames with
    | mk r routes =>
      cases r with
      | error e => simp
      | ok u =>
        simp only
        by_cases hlen :
            (jsSetDedup (worker.config.hostnames.getD [] ++ hs)).length =
              (worker.config.hostnames.getD []).length
        · simp [hlen]
        · simp only [hlen, ne_eq, not_false_eq_true, if_true, if_pos]
          rw [alookup_aput]
          by_cases hk : (t, w) = k
          · subst hk
            simp [hw]
          · simp [hk]

/-- C2: version laws of worker creation and update. Every successful
`createWorker` returns metadata with `version = 1` and stores the worker
record at version 1; every successful `updateWorker` on a stored record at
version `v` returns metadata with `version = v + 1` and stores the record
at `v + 1` - the version strictly increases by exactly 1 per successful
update. -/
theorem worker_version_laws (build : Files → BuildResult) (now : String) (s : PlatformState)
    (tenantId : String) (config : WorkerConfigInput) (workerId : String)
    (updates : WorkerConfigUpdate) :
    (∀ md s', createWorker build now s tenantId config = (.ok md, s') →
      md.version = 1 ∧
      ∃ rec, alookup s'.workers (tenantId, config.id) = some rec ∧ rec.metadata.version = 1) ∧
    (∀ existing md s', alookup s.workers (tenantId, workerId) = some existing →
      updateWorker build now s tenantId workerId updates = (.ok md, s') →
      md.version = existing.metadata.version + 1 ∧
      ∃ rec, alookup s'.workers (tenantId, workerId) = some rec ∧
        rec.metadata.version = existing.metadata.version + 1) := by
  constructor
  · intro md s' h
    unfold createWorker at h
    cases htenant : alookup s.tenants tenantId with
    | none => rw [htenant] at h; simp at h
    | some tenant =>
      rw [htenant] at h
      cases hworker : alookup s.workers (tenantId, config.id) with
      | some _ => rw [hworker] at h; simp at h
      | none =>
        rw [hworker] at h
        simp only at h
        by_cases hemp : (config.hostnames.getD []).isEmpty
        · rw [if_pos hemp] at h
          obtain ⟨hmd, hs'⟩ := Prod.mk.injEq .. ▸ h
          cases hmd
          refine ⟨rfl, ?_⟩
          rw [← hs']
          exact ⟨_, alookup_aput_self .., rfl⟩
        · rw [if_neg hemp] at h
          set s2 : PlatformState :=
            { s with
              bundles := aput s.bundles (tenantId, config.id, 1)
                { mainModule := (build config.files).mainModule
                  modules := (build config.files).modules, version := 1, builtAt := now }
              workers := aput s.workers (tenantId, config.id)
                { metadata :=
                    { id := config.id, tenantId := tenantId, createdAt := now
                      updatedAt := now, version := 1 }
                  config :=
                    { id := config.id, tenantId := tenantId, files := config.files
                      env := config.env, compatibilityDate := config.compatibilityDate
                      compatibilityFlags := config.compatibilityFlags
                      limits := config.limits, tails := config.tails
                      hostnames := config.hostnames } } } with hs2
          cases hadd : addHostnames s2 tenantId config.id (config.hostnames.getD []) with
          | mk r s3 =>
            rw [hadd] at h
            cases r with
            | error e => simp at h
            | ok u =>
              simp only at h
              obtain ⟨hmd, hs'⟩ := Prod.mk.injEq .. ▸ h
              cases hmd
              refine ⟨rfl, ?_⟩
              have hmeta := addHostnames_workers_metadata s2 tenantId config.id
                (config.hostnames.getD []) (tenantId, config.id)
              rw [hadd] at hmeta
              simp only [hs2] at hmeta
              rw [alookup_aput_self] at hmeta
              rw [← hs']
              cases hrec : alookup s3.workers (tenantId, config.id) with
              | none => rw [hrec] at hmeta; simp at hmeta
              | some rec =>
                rw [hrec] at hmeta
                simp at hmeta
                refine ⟨rec, rfl, ?_⟩
                rw [hmeta]
  · intro existing md s' hex h
    unfold updateWorker at h
    rw [hex] at h
    simp only at h
    obtain ⟨hmd, hs'⟩ := Prod.mk.injEq .. ▸ h
    cases hmd
    refine ⟨rfl, ?_⟩
    rw [← hs']
    exact ⟨_, alookup_aput_self .., rfl⟩

/-- Witness for C2: creating worker `api` for tenant `acme` stores the
record at version 1; updating the stored worker stores it at version 2. -/
theorem worker_version_laws_witness :
    (∃ rec, alookup (createWorker buildEx "t1" stateTenantOnly "acme" cfgInputEx).2.workers
        ("acme", "api") = some rec ∧ rec.metadata.version = 1) ∧
    (∃ rec, alookup (updateWorker buildEx "t2" stateWithWorker "acme" "api"
          ⟨none, none, none, none, none, none, none⟩).2.workers
        ("acme", "api") = some rec ∧ rec.metadata.version = 2) := by
  obtain ⟨hcreate, _⟩ := worker_version_laws buildEx "t1" stateTenantOnly "acme"
    cfgInputEx "api" ⟨none, none, none, none, none, none, none⟩
  obtain ⟨_, hupdate⟩ := worker_version_laws buildEx "t2" stateWithWorker "acme"
    cfgInputEx "api" ⟨none, none, none, none, none, none, none⟩
  constructor
  · have h : createWorker buildEx "t1" stateTenantOnly "acme" cfgInputEx =
        (.ok ⟨"api", "acme", "t1", "t1", 1⟩,
          (createWorker buildEx "t1" stateTenantOnly "acme" cfgInputEx).2) := rfl
    exact (hcreate _ _ h).2
  · have hex : alookup stateWithWorker.workers ("acme", "api") = some workerRecEx := by decide
    have h : updateWorker buildEx "t2" stateWithWorker "acme" "api"
        ⟨none, none, none, none, none, none, none⟩ =
        (.ok ⟨"api", "acme", "t0", "t2", 2⟩,
          (updateWorker buildEx "t2" stateWithWorker "acme" "api"
            ⟨none, none, none, none, none, none, none⟩).2) := rfl
    obtain ⟨rec, h1, h2⟩ := (hupdate workerRecEx _ _ hex h).2
    exact ⟨rec, h1, h2.trans (by decide)⟩

/-- C3: bundle coherence. In every state reachable by interleaving the
write sequences of concurrently running `createWorker` / `updateWorker`
operations (each writes its Bundle strictly before its Worker record), a
visible Worker record at version `V` implies the bundle store holds a
Bundle at `(tenantId, workerId, V)`: no interleaving lets a reader observe
a record without its bundle. -/
theorem worker_record_implies_bundle (s : SysState) (h : Reach s) :
    ∀ t w rec, alookup s.workers (t, w) = some rec →
      (alookup s.bundles (t, w, rec.metadata.version)).isSome = true :=
  (reach_sysInv s h).1

/-- Witness for C3: a concrete interleaving - spawn one `createWorker`,
execute its bundle write, then its record write - reaches `c3Final`, where
the claim yields the bundle at `("acme", "api", 1)`. -/
theorem worker_record_implies_bundle_witness :
    (alookup c3Final.bundles ("acme", "api", 1)).isSome = true := by
  have h0 : Reach ⟨[], [], []⟩ := Reach.init
  have h1 := Reach.spawnCreate ⟨[], [], []⟩ "t0" "acme" cfgInputEx (buildEx cfgInputEx.files) h0
  have h2 := Reach.execStep _ [] [] _ _ h1 rfl
  have h3 := Reach.execStep _ [] [] _ _ h2 rfl
  have hreach : Reach c3Final := h3
  exact worker_record_implies_bundle c3Final hreach "acme" "api" c3Rec (by decide)

/-- Core analysis of the `addHostnames` loop relative to the store
`routes0` it started from. Provided the current store differs from
`routes0` only by `(t, w)` routes this call already wrote over
non-conflicting entries, the loop (a) succeeds iff no listed hostname had a
conflicting route in `routes0`, (b) maintains that difference shape, (c)
only changes keys to `(t, w)` routes, and (d) on success has written a
route for every listed hostname. -/
theorem addHostnamesLoop_laws (t w : String) (routes0 : List (String × HostnameRoute)) :
    ∀ (hs : List String) (routes : List (String × HostnameRoute)),
      (∀ h, alookup routes h = alookup routes0 h ∨
        (alookup routes h = some ⟨h, t, w⟩ ∧
          ¬ ∃ r, alookup routes0 h = some r ∧ routeConflicts r t w)) →
      (((addHostnamesLoop t w hs routes).1 = .ok ()) ↔
        ∀ h ∈ hs, ¬ ∃ r, alookup routes0 h = some r ∧ routeConflicts r t w) ∧
      (∀ h, alookup (addHostnamesLoop t w hs routes).2 h = alookup routes0 h ∨
        (alookup (addHostnamesLoop t w hs routes).2 h = some ⟨h, t, w⟩ ∧
          ¬ ∃ r, alookup routes0 h = some r ∧ routeConflicts r t w)) ∧
      (∀ h, alookup (addHostnamesLoop t w hs routes).2 h = alookup routes h ∨
        alookup (addHostnamesLoop t w hs routes).2 h = some ⟨h, t, w⟩) ∧
      ((addHostnamesLoop t w hs routes).1 = .ok () →
        ∀ h ∈ hs, alookup (addHostnamesLoop t w hs routes).2 h = some ⟨h, t, w⟩) := by
  intro hs
  induction hs with
  | nil =>
    intro routes hinv
    refine ⟨by simp [addHostnamesLoop], hinv, fun h => Or.inl rfl, ?_⟩
    intro _ h hh
    cases hh
  | cons h rest ih =>
    intro routes hinv
    have hnext : (¬ ∃ r, alookup routes0 h = some r ∧ routeConflicts r t w) →
        ∀ h', alookup (aput routes h ⟨h, t, w⟩) h' = alookup routes0 h' ∨
          (alookup (aput routes h ⟨h, t, w⟩) h' = some ⟨h', t, w⟩ ∧
            ¬ ∃ r, alookup routes0 h' = some r ∧ routeConflicts r t w) := by
      intro hcurok h'
      by_cases hh' : h = h'
      · subst hh'
        exact Or.inr ⟨alookup_aput_self .., hcurok⟩
      · rw [alookup_aput_ne _ _ _ _ hh']
        exact hinv h'
    have hstep : ∀ (h0ok : ¬ ∃ r, alookup routes0 h = some r ∧ routeConflicts r t w)
        (hres : addHostnamesLoop t w (h :: rest) routes =
          addHostnamesLoop t w rest (aput routes h ⟨h, t, w⟩)),
        (((addHostnamesLoop t w (h :: rest) routes).1 = .ok ()) ↔
          ∀ h' ∈ h :: rest, ¬ ∃ r, alookup routes0 h' = some r ∧ routeConflicts r t w) ∧
        (∀ h', alookup (addHostnamesLoop t w (h :: rest) routes).2 h' = alookup routes0 h' ∨
          (alookup (addHostnamesLoop t w (h :: rest) routes).2 h' = some ⟨h', t, w⟩ ∧
            ¬ ∃ r, alookup routes0 h' = some r ∧ routeConflicts r t w)) ∧
        (∀ h', alookup (addHostnamesLoop t w (h :: rest) routes).2 h' = alookup routes h' ∨
          alookup (addHostnamesLoop t w (h :: rest) routes).2 h' = some ⟨h', t, w⟩) ∧
        ((addHostnamesLoop t w (h :: rest) routes).1 = .ok () →
          ∀ h' ∈ h :: rest,
            alookup (addHostnamesLoop t w (h :: rest) routes).2 h' = some ⟨h', t, w⟩) := by
      intro h0ok hres
      obtain ⟨iha, ihb, ihc, ihd⟩ := ih (aput routes h ⟨h, t, w⟩) (hnext h0ok)
      rw [hres]
      refine ⟨?_, ihb, ?_, ?_⟩
      · rw [iha]
        constructor
        · intro hall h' hh'
          rcases List.mem_cons.mp hh' with rfl | hh''
          · exact h0ok
          · exact hall h' hh''
        · intro hall h' hh'
          exact hall h' (List.mem_cons.mpr (Or.inr hh'))
      · intro h'
        by_cases hh' : h = h'
        · subst hh'
          rcases ihc h with h1 | h2
          · exact Or.inr (h1.trans (alookup_aput_self ..))
          · exact Or.inr h2
        · rcases ihc h' with h1 | h2
          · exact Or.inl (h1.trans (alookup_aput_ne _ _ _ _ hh'))
          · exact Or.inr h2
      · intro hok h' hh'
        rcases List.mem_cons.mp hh' with rfl | hh''
        · rcases ihc h' with h1 | h2
          · exact h1.trans (alookup_aput_self ..)
          · exact h2
        · exact ihd hok h' hh''
    cases hcur : alookup routes h with
    | some r =>
      by_cases hconf : routeConflicts r t w
      · have hres : addHostnamesLoop t w (h :: rest) routes =
            (.error (.hostnameConflict h r.tenantId r.workerId), routes) := by
          simp [addHostnamesLoop, hcur, hconf]
        have h0conf : ∃ r', alookup routes0 h = some r' ∧ routeConflicts r' t w := by
          rcases hinv h with heq | ⟨hw', _⟩
          · exact ⟨r, heq ▸ hcur, hconf⟩
          · rw [hcur] at hw'
            cases hw'
            exact absurd hconf (by simp [routeConflicts])
        rw [hres]
        refine ⟨?_, hinv, fun h' => Or.inl rfl, ?_⟩
        · constructor
          · intro hok
            cases hok
          · intro hall
            exact absurd h0conf (hall h (List.mem_cons_self ..))
        · intro hok
          cases hok
      · have h0ok : ¬ ∃ r', alookup routes0 h = some r' ∧ routeConflicts r' t w := by
          rcases hinv h with heq | ⟨_, hnc⟩
          · rw [heq] at hcur
            rintro ⟨r', hr', hc'⟩
            rw [hcur] at hr'
            cases hr'
            exact hconf hc'
          · exact hnc
        exact hstep h0ok (by simp [addHostnamesLoop, hcur, hconf])
    | none =>
      have h0ok : ¬ ∃ r', alookup routes0 h = some r' ∧ routeConflicts r' t w := by
        rcases hinv h with heq | ⟨hw', hnc⟩
        · rw [heq] at hcur
          rintro ⟨r', hr', _⟩
          rw [hcur] at hr'
          cases hr'
        · exact hnc
      exact hstep h0ok (by simp [addHostnamesLoop, hcur])

/-- When the `addHostnames` loop throws, the store it leaves behind is the
starting store plus a `(t, w)` route for exactly the hostnames before the
first conflicting one: nothing is rolled back. -/
theorem addHostnamesLoop_error_state (t w : String) (routes0 : List (String × HostnameRoute)) :
    ∀ (hs : List String) (routes : List (String × HostnameRoute)),
      (∀ h, alookup routes h = alookup routes0 h ∨
        (alookup routes h = some ⟨h, t, w⟩ ∧
          ¬ ∃ r, alookup routes0 h = some r ∧ routeConflicts r t w)) →
      ∀ e, (addHostnamesLoop t w hs routes).1 = .error e →
        (addHostnamesLoop t w hs routes).2 =
          (hs.takeWhile (fun h =>
            match alookup routes0 h with
            | some r => !decide (routeConflicts r t w)
            | none => true)).foldl (fun rs h => aput rs h ⟨h, t, w⟩) routes := by
  intro hs
  induction hs with
  | nil =>
    intro routes _ e he
    simp [addHostnamesLoop] at he
  | cons h rest ih =>
    intro routes hinv e he
    cases hcur : alookup routes h with
    | some r =>
      by_cases hconf : routeConflicts r t w
      · have h0conf : ∃ r', alookup routes0 h = some r' ∧ routeConflicts r' t w := by
          rcases hinv h with heq | ⟨hw', _⟩
          · exact ⟨r, heq ▸ hcur, hconf⟩
          · rw [hcur] at hw'
            cases hw'
            exact absurd hconf (by simp [routeConflicts])
        obtain ⟨r', hr0, hc'⟩ := h0conf
        have hres : addHostnamesLoop t w (h :: rest) routes =
            (.error (.hostnameConflict h r.tenantId r.workerId), routes) := by
          simp [addHostnamesLoop, hcur, hconf]
        rw [hres]
        simp [List.takeWhile_cons, hr0, hc']
      · have h0ok : ¬ ∃ r', alookup routes0 h = some r' ∧ routeConflicts r' t w := by
          rcases hinv h with heq | ⟨_, hnc⟩
          · rw [heq] at hcur
            rintro ⟨r', hr', hc'⟩
            rw [hcur] at hr'
            cases hr'
            exact hconf hc'
          · exact hnc
        have hres : addHostnamesLoop t w (h :: rest) routes =
            addHostnamesLoop t w rest (aput routes h ⟨h, t, w⟩) := by
          simp [addHostnamesLoop, hcur, hconf]
        have hinv' : ∀ h', alookup (aput routes h ⟨h, t, w⟩) h' = alookup routes0 h' ∨
            (alookup (aput routes h ⟨h, t, w⟩) h' = some ⟨h', t, w⟩ ∧
              ¬ ∃ r', alookup routes0 h' = some r' ∧ routeConflicts r' t w) := by
          intro h'
          by_cases hh' : h = h'
          · subst hh'
            exact Or.inr ⟨alookup_aput_self .., h0ok⟩
          · rw [alookup_aput_ne _ _ _ _ hh']
            exact hinv h'
        rw [hres] at he ⊢
        have hpred : (match alookup routes0 h with
            | some r => !decide (routeConflicts r t w)
            | none => true) = true := by
          cases hr0 : alookup routes0 h with
          | some r'' =>
            have hnc : ¬ routeConflicts r'' t w := fun hc => h0ok ⟨r'', hr0, hc⟩
            simp [hr0, hnc]
          | none => simp [hr0]
        rw [List.takeWhile_cons, if_pos hpred]
        simp only [List.foldl_cons]
        exact ih (aput routes h ⟨h, t, w⟩) hinv' e he
    | none =>
      have h0ok : ¬ ∃ r', alookup routes0 h = some r' ∧ routeConflicts r' t w := by
        rcases hinv h with heq | ⟨hw', hnc⟩
        · rw [heq] at hcur
          rintro ⟨r', hr', _⟩
          rw [hcur] at hr'
          cases hr'
        · exact hnc
      have hres : addHostnamesLoop t w (h :: rest) routes =
          addHostnamesLoop t w rest (aput routes h ⟨h, t, w⟩) := by
        simp [addHostnamesLoop, hcur]
      have hinv' : ∀ h', alookup (aput routes h ⟨h, t, w⟩) h' = alookup routes0 h' ∨
          (alookup (aput routes h ⟨h, t, w⟩) h' = some ⟨h', t, w⟩ ∧
            ¬ ∃ r', alookup routes0 h' = some r' ∧ routeConflicts r' t w) := by
        intro h'
        by_cases hh' : h = h'
        · subst hh'
          exact Or.inr ⟨alookup_aput_self .., h0ok⟩
        · rw [alookup_aput_ne _ _ _ _ hh']
          exact hinv h'
      rw [hres] at he ⊢
      have hpred : (match alookup routes0 h with
          | some r => !decide (routeConflicts r t w)
          | none => true) = true := by
        cases hr0 : alookup routes0 h with
        | some r'' =>
          have hnc : ¬ routeConflicts r'' t w := fun hc => h0ok ⟨r'', hr0, hc⟩
          simp [hr0, hnc]
        | none => simp [hr0]
      rw [List.takeWhile_cons, if_pos hpred]
      simp only [List.foldl_cons]
      exact ih (aput routes h ⟨h, t, w⟩) hinv' e he

/-- Counterexample to C6 as stated. The worker's stored hostname list is
`["a", "a"]` (reachable via `updateWorker`, which stores the raw hostname
list). `addHostnames` for the fresh hostname `"b"` succeeds and writes the
route for `"b"`, but the worker's stored hostname set is NOT updated to the
set union: the length comparison between the deduplicated union
`["a", "b"]` and the stored list `["a", "a"]` sees equal lengths and skips
the update, so `"b"` is missing from the stored set. -/
theorem addHostnames_union_counterexample :
    (addHostnames stateDupHostnames "acme" "api" ["b"]).1 = .ok () ∧
    alookup (addHostnames stateDupHostnames "acme" "api" ["b"]).2.hostnames "b" =
      some { hostname := "b", tenantId := "acme", workerId := "api" } ∧
    alookup (addHostnames stateDupHostnames "acme" "api" ["b"]).2.workers ("acme", "api") =
      some workerRecDup ∧
    workerRecDup.config.hostnames = some ["a", "a"] ∧
    ¬ "b" ∈ (workerRecDup.config.hostnames.getD []) := by
  refine ⟨rfl, by decide, by decide, by decide, by decide⟩

/-- C6 (amended): `addHostnames(tenantId, workerId, hostnames)` on a state
whose worker record exists (a) fails with a `ConflictError` exactly when
some hostname in the list has an existing route pointing to a different
`(tenantId, workerId)`; (b) on success writes a route for every listed
hostname; (c) never overwrites a route owned by another worker, so a
hostname keeps resolving to its first binding and resolves to at most one
worker; and (d) - the amended part - updates the worker's stored hostname
set to the set union on success provided the stored list is duplicate-free
(with stored duplicates, the source's length comparison can skip the
update; see the counterexample). -/
theorem addHostnames_amended (s : PlatformState) (t w : String) (hs : List String)
    (worker : WorkerRecord) (hw : alookup s.workers (t, w) = some worker) :
    (((addHostnames s t w hs).1 = .ok ()) ↔
      ∀ h ∈ hs, ¬ ∃ r, alookup s.hostnames h = some r ∧ routeConflicts r t w) ∧
    (((addHostnames s t w hs).1 = .ok ()) →
      ∀ h ∈ hs, alookup (addHostnames s t w hs).2.hostnames h =
        some { hostname := h, tenantId := t, workerId := w }) ∧
    (∀ h r, alookup s.hostnames h = some r → routeConflicts r t w →
      alookup (addHostnames s t w hs).2.hostnames h = some r) ∧
    ((worker.config.hostnames.getD []).Nodup → ((addHostnames s t w hs).1 = .ok ()) →
      ∃ rec, alookup (addHostnames s t w hs).2.workers (t, w) = some rec ∧
        ∀ x, x ∈ rec.config.hostnames.getD [] ↔
          x ∈ worker.config.hostnames.getD [] ∨ x ∈ hs) := by
  obtain ⟨la, lb, lc, ld⟩ :=
    addHostnamesLoop_laws t w s.hostnames hs s.hostnames (fun h => Or.inl rfl)
  have hunfold : addHostnames s t w hs =
      match addHostnamesLoop t w hs s.hostnames with
      | (.error e, routes) => (.error e, { s with hostnames := routes })
      | (.ok _, routes) =>
        let current := worker.config.hostnames.getD []
        let newHostnames := jsSetDedup (current ++ hs)
        if newHostnames.length ≠ current.length then
          (.ok (), { s with
            hostnames := routes
            workers := aput s.workers (t, w)
              { worker with config := { worker.config with hostnames := some newHostnames } } })
        else
          (.ok (), { s with hostnames := routes }) := by
    unfold addHostnames
    rw [hw]
  cases hloop : addHostnamesLoop t w hs s.hostnames with
  | mk res routes =>
    rw [hloop] at hunfold la lb lc ld
    simp only at la lb lc ld
    cases res with
    | error e =>
      rw [hunfold]
      simp only
      refine ⟨?_, ?_, ?_, ?_⟩
      · constructor
        · intro hok
          cases hok
        · intro hall
          exact absurd (la.mpr hall) (fun hok => by cases hok)
      · intro hok
        cases hok
      · intro h r hr hconf
        rcases lb h with heq | ⟨_, hnc⟩
        · exact heq.trans hr
        · exact absurd ⟨r, hr, hconf⟩ hnc
      · intro _ hok
        cases hok
    | ok u =>
      cases u
      rw [hunfold]
      simp only
      have hsucc : ∀ h ∈ hs, ¬ ∃ r, alookup s.hostnames h = some r ∧ routeConflicts r t w :=
        la.mp rfl
      by_cases hlen :
          (jsSetDedup (worker.config.hostnames.getD [] ++ hs)).length =
            (worker.config.hostnames.getD []).length
      · simp only [hlen, ne_eq, not_true_eq_false, if_false]
        refine ⟨?_, ?_, ?_, ?_⟩
        · simp only [true_iff]
          exact hsucc
        · intro _ h hh
          exact ld rfl h hh
        · intro h r hr hconf
          rcases lb h with heq | ⟨_, hnc⟩
          · exact heq.trans hr
          · exact absurd ⟨r, hr, hconf⟩ hnc
        · intro hnodup _
          refine ⟨worker, hw, ?_⟩
          intro x
          have hsub : ∀ y ∈ hs, y ∈ worker.config.hostnames.getD [] := by
            have hfix := hlen
            rw [jsSetDedup_append_left, jsSetDedup_of_nodup _ hnodup] at hfix
            exact foldl_insertUnique_length_fixed _ _ hfix
          constructor
          · exact Or.inl
          · rintro (hx | hx)
            · exact hx
            · exact hsub x hx
      · simp only [hlen, ne_eq, not_false_eq_true, if_true]
        refine ⟨?_, ?_, ?_, ?_⟩
        · simp only [true_iff]
          exact hsucc
        · intro _ h hh
          exact ld rfl h hh
        · intro h r hr hconf
          rcases lb h with heq | ⟨_, hnc⟩
          · exact heq.trans hr
          · exact absurd ⟨r, hr, hconf⟩ hnc
        · intro _ _
          refine ⟨_, alookup_aput_self .., ?_⟩
          intro x
          simp only [Option.getD_some]
          rw [mem_jsSetDedup]
          exact List.mem_append

/-- Witness for the amended C6: on `stateConflict`, adding `["h2"]` (whose
route is owned by `other/api2`) is exactly a conflict, and the original
binding of `"h2"` survives; adding `["b"]` to the duplicate-free worker of
`stateWithWorker` succeeds, routes `"b"`, and the stored set becomes the
union. -/
theorem addHostnames_amended_witness :
    ¬ ((addHostnames stateConflict "acme" "api" ["h2"]).1 = .ok ()) ∧
    alookup (addHostnames stateConflict "acme" "api" ["h2"]).2.hostnames "h2" =
      some { hostname := "h2", tenantId := "other", workerId := "api2" } ∧
    (addHostnames stateWithWorker "acme" "api" ["b"]).1 = .ok () ∧
    alookup (addHostnames stateWithWorker "acme" "api" ["b"]).2.hostnames "b" =
      some { hostname := "b", tenantId := "acme", workerId := "api" } := by
  obtain ⟨la1, _, lc1, _⟩ := addHostnames_amended stateConflict "acme" "api" ["h2"]
    workerRecEx (by decide)
  obtain ⟨la2, lb2, _, _⟩ := addHostnames_amended stateWithWorker "acme" "api" ["b"]
    workerRecEx (by decide)
  refine ⟨?_, ?_, ?_, ?_⟩
  · intro hok
    have := la1.mp hok "h2" (List.mem_singleton.mpr rfl)
    exact this ⟨{ hostname := "h2", tenantId := "other", workerId := "api2" }, by decide,
      by simp [routeConflicts]⟩
  · exact lc1 "h2" { hostname := "h2", tenantId := "other", workerId := "api2" } (by decide)
      (by simp [routeConflicts])
  · refine la2.mpr ?_
    intro h hh
    rcases List.mem_singleton.mp hh with rfl
    rintro ⟨r, hr, _⟩
    rw [show alookup stateWithWorker.hostnames "b" = none from by decide] at hr
    cases hr
  · refine lb2 ?_ "b" (List.mem_singleton.mpr rfl)
    refine la2.mpr ?_
    intro h hh
    rcases List.mem_singleton.mp hh with rfl
    rintro ⟨r, hr, _⟩
    rw [show alookup stateWithWorker.hostnames "b" = none from by decide] at hr
    cases hr

/-- Counterexample to C7 as stated. In `stateConflict`, `"h2"` is routed to
`other/api2`. `addHostnames("acme", "api", ["h1", "h2"])` writes the route
for `"h1"`, then fails on `"h2"` with a `ConflictError` - and the route for
`"h1"` written earlier in the same call is still present afterwards, so the
hostname store is NOT left as it was before the call: no rollback happens. -/
theorem addHostnames_rollback_counterexample :
    (addHostnames stateConflict "acme" "api" ["h1", "h2"]).1 =
      .error (.hostnameConflict "h2" "other" "api2") ∧
    alookup stateConflict.hostnames "h1" = none ∧
    alookup (addHostnames stateConflict "acme" "api" ["h1", "h2"]).2.hostnames "h1" =
      some { hostname := "h1", tenantId := "acme", workerId := "api" } := by
  exact ⟨rfl, by decide, by decide⟩

/-- On either error path (`workerNotFound` or a hostname conflict),
`addHostnames` leaves the worker and bundle stores untouched. -/
theorem addHostnames_error_state_stores (s : PlatformState) (t w : String) (hs : List String)
    (e : PlatformError) (st : PlatformState) (h : addHostnames s t w hs = (.error e, st)) :
    st.workers = s.workers ∧ st.bundles = s.bundles := by
  unfold addHostnames at h
  cases hw : alookup s.workers (t, w) with
  | none =>
    rw [hw] at h
    obtain ⟨-, hst⟩ := Prod.mk.injEq .. ▸ h
    rw [← hst]
    exact ⟨rfl, rfl⟩
  | some worker =>
    rw [hw] at h
    cases hloop : addHostnamesLoop t w hs s.hostnames with
    | mk res routes =>
      rw [hloop] at h
      cases res with
      | error e' =>
        simp only at h
        obtain ⟨-, hst⟩ := Prod.mk.injEq .. ▸ h
        rw [← hst]
        exact ⟨rfl, rfl⟩
      | ok u =>
        simp only at h
        by_cases hlen :
            (jsSetDedup (worker.config.hostnames.getD [] ++ hs)).length =
              (worker.config.hostnames.getD []).length
        · simp only [hlen, ne_eq, not_true_eq_false, if_false] at h
          cases (Prod.mk.injEq .. ▸ h).1
        · simp only [hlen, ne_eq, not_false_eq_true, if_true] at h
          cases (Prod.mk.injEq .. ▸ h).1

/-- C7 (amended): there is no rollback. When `addHostnames` fails with a
`ConflictError` partway through its hostname list, the routes written for
the earlier (conflict-free) prefix of the same call remain in the hostname
store - the final store is the pre-call store plus a `(t, w)` route for
exactly the hostnames before the first conflicting one - and the worker
store is unchanged. Likewise, when the hostname step of `createWorker`
fails, nothing is undone: the just-written Worker record and its bundle
remain. (There is also no retry: the operations are pure functions of the
input state.) -/
theorem addHostnames_no_rollback (s : PlatformState) (t w : String) (hs : List String)
    (worker : WorkerRecord) (hw : alookup s.workers (t, w) = some worker) :
    (∀ e, (addHostnames s t w hs).1 = .error e →
      (addHostnames s t w hs).2.workers = s.workers ∧
      (addHostnames s t w hs).2.hostnames =
        (hs.takeWhile (fun h =>
          match alookup s.hostnames h with
          | some r => !decide (routeConflicts r t w)
          | none => true)).foldl
          (fun rs h => aput rs h { hostname := h, tenantId := t, workerId := w })
          s.hostnames) ∧
    (∀ (build : Files → BuildResult) (now : String) (config : WorkerConfigInput)
        (e : PlatformError) (s' : PlatformState) (tenant : TenantRecord),
      alookup s.tenants t = some tenant →
      alookup s.workers (t, config.id) = none →
      createWorker build now s t config = (.error e, s') →
      (alookup s'.workers (t, config.id)).isSome = true ∧
      (alookup s'.bundles (t, config.id, 1)).isSome = true) := by
  constructor
  · intro e he
    have hunfold : addHostnames s t w hs =
        match addHostnamesLoop t w hs s.hostnames with
        | (.error e', routes) => (.error e', { s with hostnames := routes })
        | (.ok _, routes) =>
          let current := worker.config.hostnames.getD []
          let newHostnames := jsSetDedup (current ++ hs)
          if newHostnames.length ≠ current.length then
            (.ok (), { s with
              hostnames := routes
              workers := aput s.workers (t, w)
                { worker with
                  config := { worker.config with hostnames := some newHostnames } } })
          else
            (.ok (), { s with hostnames := routes }) := by
      unfold addHostnames
      rw [hw]
    cases hloop : addHostnamesLoop t w hs s.hostnames with
    | mk res routes =>
      rw [hloop] at hunfold
      cases res with
      | error e' =>
        rw [hunfold]
        refine ⟨rfl, ?_⟩
        have := addHostnamesLoop_error_state t w s.hostnames hs s.hostnames
          (fun h => Or.inl rfl) e' (by rw [hloop])
        rw [hloop] at this
        exact this
      | ok u =>
        rw [hunfold] at he
        simp only at he
        by_cases hlen :
            (jsSetDedup (worker.config.hostnames.getD [] ++ hs)).length =
              (worker.config.hostnames.getD []).length
        · simp only [hlen, ne_eq, not_true_eq_false, if_false] at he
          cases he
        · simp only [hlen, ne_eq, not_false_eq_true, if_true] at he
          cases he
  · intro build now config e s' tenant htenant hworker hcall
    unfold createWorker at hcall
    rw [htenant, hworker] at hcall
    simp only at hcall
    by_cases hemp : (config.hostnames.getD []).isEmpty
    · rw [if_pos hemp] at hcall
      cases (Prod.mk.injEq .. ▸ hcall).1
    · rw [if_neg hemp] at hcall
      set s2 : PlatformState :=
        { s with
          bundles := aput s.bundles (t, config.id, 1)
            { mainModule := (build config.files).mainModule
              modules := (build config.files).modules, version := 1, builtAt := now }
          workers := aput s.workers (t, config.id)
            { metadata :=
                { id := config.id, tenantId := t, createdAt := now, updatedAt := now
                  version := 1 }
              config :=
                { id := config.id, tenantId := t, files := config.files, env := config.env
                  compatibilityDate := config.compatibilityDate
                  compatibilityFlags := config.compatibilityFlags
                  limits := config.limits, tails := config.tails
                  hostnames := config.hostnames } } } with hs2
      cases hadd : addHostnames s2 t config.id (config.hostnames.getD []) with
      | mk r s3 =>
        rw [hadd] at hcall
        cases r with
        | error e' =>
          simp only at hcall
          obtain ⟨-, hs3⟩ := Prod.mk.injEq .. ▸ hcall
          obtain ⟨hws, hbs⟩ := addHostnames_error_state_stores s2 t config.id
            (config.hostnames.getD []) e' s3 hadd
          rw [← hs3, hws, hbs, hs2]
          constructor
          · rw [alookup_aput_self]
            rfl
          · rw [alookup_aput_self]
            rfl
        | ok u =>
          simp only at hcall
          cases (Prod.mk.injEq .. ▸ hcall).1

/-- Witness for the amended C7: on `stateConflict`, the failing call leaves
the worker store unchanged and the hostname store equal to the pre-call
store plus the route for the conflict-free prefix `["h1"]`; and
`createWorker` with the conflicting hostname `"h2"` errors while its worker
record and bundle remain stored. -/
theorem addHostnames_no_rollback_witness :
    ((addHostnames stateConflict "acme" "api" ["h1", "h2"]).2.workers =
      stateConflict.workers ∧
    (addHostnames stateConflict "acme" "api" ["h1", "h2"]).2.hostnames =
      (["h1", "h2"].takeWhile (fun h =>
        match alookup stateConflict.hostnames h with
        | some r => !decide (routeConflicts r "acme" "api")
        | none => true)).foldl
        (fun rs h => aput rs h { hostname := h, tenantId := "acme", workerId := "api" })
        stateConflict.hostnames) ∧
    ((alookup (createWorker buildEx "t1" stateConflict "acme"
        { cfgInputEx with id := "api2b", hostnames := some ["h2"] }).2.workers
      ("acme", "api2b")).isSome = true ∧
    (alookup (createWorker buildEx "t1" stateConflict "acme"
        { cfgInputEx with id := "api2b", hostnames := some ["h2"] }).2.bundles
      ("acme", "api2b", 1)).isSome = true) := by
  obtain ⟨hmain, hcw⟩ := addHostnames_no_rollback stateConflict "acme" "api" ["h1", "h2"]
    workerRecEx (by decide)
  refine ⟨hmain (.hostnameConflict "h2" "other" "api2") rfl, ?_⟩
  exact hcw buildEx "t1" { cfgInputEx with id := "api2b", hostnames := some ["h2"] }
    (.hostnameConflict "h2" "other" "api2")
    (createWorker buildEx "t1" stateConflict "acme"
      { cfgInputEx with id := "api2b", hostnames := some ["h2"] }).2
    tenantRecEx (by decide) (by decide) rfl

/-- Counterexample to C8 as stated. `stateFull` has tenant `acme`, worker
`api` with its bundle at version 1, and the hostname route
`app.acme.com -> acme/api`. `deleteTenant "acme"` deletes the worker record
and the tenant record, but the worker's hostname route AND its bundle are
both still present afterwards: the cascade to hostname routes and bundles
does not happen (only `deleteWorker` performs it, and `deleteTenant` calls
`workers.deleteAll` instead of `deleteWorker`). -/
theorem deleteTenant_cascade_counterexample :
    (deleteTenant stateFull "acme").1 = true ∧
    alookup (deleteTenant stateFull "acme").2.workers ("acme", "api") = none ∧
    alookup (deleteTenant stateFull "acme").2.tenants "acme" = none ∧
    alookup (deleteTenant stateFull "acme").2.hostnames "app.acme.com" =
      some { hostname := "app.acme.com", tenantId := "acme", workerId := "api" } ∧
    alookup (deleteTenant stateFull "acme").2.bundles ("acme", "api", 1) = some bundleEx := by
  refine ⟨by decide, by decide, by decide, by decide, by decide⟩

/-- C8 (amended): `deleteTenant(tenantId)` removes exactly the tenant's
Worker records (via `workers.deleteAll`) and then the tenant record; it
does NOT touch the hostname store, the bundle store or the template store -
the cascade to a worker's HostnameRoutes and Bundles happens only in
`deleteWorker`, which deletes the routes pointing at the worker and all the
worker's bundles along with its record. -/
theorem deleteTenant_amended (s : PlatformState) (t w : String) :
    (deleteTenant s t).2.hostnames = s.hostnames ∧
    (deleteTenant s t).2.bundles = s.bundles ∧
    (deleteTenant s t).2.templates = s.templates ∧
    (∀ t' w', alookup (deleteTenant s t).2.workers (t', w') =
      if t' = t then none else alookup s.workers (t', w')) ∧
    alookup (deleteTenant s t).2.tenants t = none ∧
    (deleteWorker s t w).2.hostnames =
      s.hostnames.filter (fun p => decide (¬(p.2.tenantId = t ∧ p.2.workerId = w))) ∧
    (deleteWorker s t w).2.bundles =
      s.bundles.filter (fun p => decide (¬(p.1.1 = t ∧ p.1.2.1 = w))) ∧
    alookup (deleteWorker s t w).2.workers (t, w) = none := by
  refine ⟨rfl, rfl, rfl, ?_, ?_, rfl, rfl, ?_⟩
  · intro t' w'
    have h := alookup_filter_key s.workers (fun k => decide (k.1 ≠ t)) (t', w')
    simp only [deleteTenant]
    rw [h]
    by_cases ht' : t' = t
    · simp [ht']
    · simp [ht']
  · simp [deleteTenant, alookup_aremove]
  · simp [deleteWorker, alookup_aremove]

/-- Counterexample to C4 as stated. Two sequential `Platform.runEphemeral`
calls on the same platform with identical files and options invoke the
bundler twice, not at most once: the method calls `buildWorker`
unconditionally after the tenant check, with no fingerprint lookup, no
stored-bundle reuse and no single-flight (its loader name even embeds
`Date.now()`). The claim's prediction that the bundler runs at most once
in-process is therefore false at this input. -/
theorem runEphemeral_caching_counterexample :
    ¬ ((runEphemeral buildEx defaultsEx 1 stateTenantOnly "acme" [("src/index.ts", "code")]
          ⟨none, none⟩
          (runEphemeral buildEx defaultsEx 0 stateTenantOnly "acme" [("src/index.ts", "code")]
            ⟨none, none⟩ 0).2).2 ≤ 1) := by
  decide

/-- C4 (amended): `Platform.runEphemeral` performs no build caching - every
call whose tenant check passes invokes the bundler exactly once, so two
calls with identical files build twice. Content-fingerprint caching exists
only in the example front-end's `POST /api/run` handler (`runApiCached`):
there, a first call with a cache miss builds once and stores the bundle
under the fingerprint key, and a second call with identical files reuses
the stored bundle, reports `cached = true`, performs no build, and returns
the same bundle contents. (No in-process single-flight exists anywhere:
the handler's reuse is purely read-then-write through the store.) -/
theorem build_caching_amended (hash : Files → String) (build : Files → BuildResult)
    (defaults : WorkerDefaults) (now now' : String) (kv : List (String × EphemeralBundle))
    (files : Files) (n m : Nat) (s : PlatformState) (t : String) (nowMs nowMs' : Nat)
    (opts : EphemeralOptions) (tenant : TenantRecord)
    (ht : alookup s.tenants t = some tenant)
    (hmiss : alookup kv ("ephemeral-bundle:" ++ hash files) = none) :
    ((runEphemeral build defaults nowMs s t files opts n).2 = n + 1 ∧
     (runEphemeral build defaults nowMs' s t files opts
       (runEphemeral build defaults nowMs s t files opts n).2).2 = n + 2) ∧
    ((runApiCached hash build now kv files m).1.cached = false ∧
     (runApiCached hash build now kv files m).2.2 = m + 1 ∧
     (runApiCached hash build now'
       (runApiCached hash build now kv files m).2.1 files
       (runApiCached hash build now kv files m).2.2).1.cached = true ∧
     (runApiCached hash build now'
       (runApiCached hash build now kv files m).2.1 files
       (runApiCached hash build now kv files m).2.2).2.2 = m + 1 ∧
     (runApiCached hash build now'
       (runApiCached hash build now kv files m).2.1 files
       (runApiCached hash build now kv files m).2.2).1.mainModule =
       (runApiCached hash build now kv files m).1.mainModule ∧
     (runApiCached hash build now'
       (runApiCached hash build now kv files m).2.1 files
       (runApiCached hash build now kv files m).2.2).1.modules =
       (runApiCached hash build now kv files m).1.modules) := by
  have hrun : ∀ (nm : Nat) (k : Nat),
      (runEphemeral build defaults nm s t files opts k).2 = k + 1 := by
    intro nm k
    unfold runEphemeral
    rw [ht]
  have hfirst : runApiCached hash build now kv files m =
      (⟨(build files).mainModule, (build files).modules, false⟩,
        aput kv ("ephemeral-bundle:" ++ hash files)
          ⟨(build files).mainModule, (build files).modules, now⟩, m + 1) := by
    simp [runApiCached, hmiss]
  have hsecond : runApiCached hash build now'
      (aput kv ("ephemeral-bundle:" ++ hash files)
        ⟨(build files).mainModule, (build files).modules, now⟩) files (m + 1) =
      (⟨(build files).mainModule, (build files).modules, true⟩,
        aput kv ("ephemeral-bundle:" ++ hash files)
          ⟨(build files).mainModule, (build files).modules, now⟩, m + 1) := by
    simp [runApiCached, alookup_aput_self]
  refine ⟨⟨hrun nowMs n, ?_⟩, ?_⟩
  · rw [hrun nowMs n, hrun nowMs' (n + 1)]
  · rw [hfirst, hsecond]
    exact ⟨rfl, rfl, rfl, rfl, rfl, rfl⟩

/-- Witness for the amended C4: with a constant hasher, the concrete
bundler and an empty fingerprint store, `runEphemeral` builds on both of
two identical calls while the front-end handler builds once and reports a
cache hit on the second call. -/
theorem build_caching_amended_witness :
    ((runEphemeral buildEx defaultsEx 0 stateTenantOnly "acme" [("src/index.ts", "code")]
        ⟨none, none⟩ 0).2 = 1 ∧
     (runApiCached (fun _ => "h") buildEx "t1" [] [("src/index.ts", "code")] 0).1.cached =
       false ∧
     (runApiCached (fun _ => "h") buildEx "t2"
       (runApiCached (fun _ => "h") buildEx "t1" [] [("src/index.ts", "code")] 0).2.1
       [("src/index.ts", "code")]
       (runApiCached (fun _ => "h") buildEx "t1" [] [("src/index.ts", "code")] 0).2.2).1.cached =
       true) := by
  obtain ⟨⟨h1, h2⟩, h3, h4, h5, h6, h7, h8⟩ := build_caching_amended (fun _ => "h") buildEx
    defaultsEx "t1" "t2" [] [("src/index.ts", "code")] 0 0 stateTenantOnly "acme" 0 1
    ⟨none, none⟩ tenantRecEx (by decide) (by decide)
  exact ⟨h1, h3, h5⟩

/-- C5: the `getStub` contract. With both the tenant and the worker record
present: (fast path) if the stub cache holds an entry for
`tenantId:workerId` at the worker's current version, that cached stub is
returned, the loader is not consulted and the cache is unchanged;
(slow path) otherwise the loader is asked for a stub under the name
`tenantId:workerId:v{version}`, the `(version, stub)` pair is stored in the
cache, and the cold-start callback handed to the loader reads the Bundle at
`(tenantId, workerId, version)` from the bundle store - failing the cold
start with a missing-bundle error when it is absent, and otherwise
returning a descriptor whose modules come verbatim from the stored bundle
(no rebuild: `getStub` takes no bundler at all) together with the resolved
effective config. -/
theorem getStub_contract (loader : String → WorkerStub) (outbound : Option String)
    (defaults : WorkerDefaults) (s : PlatformState) (t w : String)
    (tenant : TenantRecord) (worker : WorkerRecord)
    (ht : alookup s.tenants t = some tenant)
    (hw : alookup s.workers (t, w) = some worker) :
    (∀ e, alookup s.stubCache (t ++ ":" ++ w) = some e → e.1 = worker.metadata.version →
      (getStub loader outbound defaults s t w).outcome = .ok e.2 ∧
      (getStub loader outbound defaults s t w).usedLoader = false ∧
      (getStub loader outbound defaults s t w).cacheAfter = s.stubCache) ∧
    ((∀ e, alookup s.stubCache (t ++ ":" ++ w) = some e → e.1 ≠ worker.metadata.version) →
      (getStub loader outbound defaults s t w).usedLoader = true ∧
      (getStub loader outbound defaults s t w).loaderName =
        some (t ++ ":" ++ w ++ ":v" ++ toString worker.metadata.version) ∧
      (getStub loader outbound defaults s t w).outcome =
        .ok (loader (t ++ ":" ++ w ++ ":v" ++ toString worker.metadata.version)) ∧
      (getStub loader outbound defaults s t w).cacheAfter =
        aput s.stubCache (t ++ ":" ++ w)
          (worker.metadata.version,
            loader (t ++ ":" ++ w ++ ":v" ++ toString worker.metadata.version)) ∧
      ∃ cb, (getStub loader outbound defaults s t w).coldStart = some cb ∧
        ∀ bundles, cb bundles =
          match alookup bundles (t, w, worker.metadata.version) with
          | none => .error (.missingBundle t w worker.metadata.version)
          | some bundle =>
            .ok { mainModule := bundle.mainModule, modules := bundle.modules
                  compatibilityDate := (mergeConfig defaults tenant worker).compatibilityDate
                  compatibilityFlags := (mergeConfig defaults tenant worker).compatibilityFlags
                  env := (mergeConfig defaults tenant worker).env
                  limits := (mergeConfig defaults tenant worker).limits
                  globalOutbound := outbound
                  tails := (mergeConfig defaults tenant worker).tails }) := by
  have hunfold : getStub loader outbound defaults s t w =
      match alookup s.stubCache (t ++ ":" ++ w) with
      | some cached =>
        if cached.1 = worker.metadata.version then
          { outcome := .ok cached.2, usedLoader := false, loaderName := none
            coldStart := none, cacheAfter := s.stubCache }
        else
          getStubLoad loader outbound defaults s t w tenant worker
      | none => getStubLoad loader outbound defaults s t w tenant worker := by
    unfold getStub
    rw [ht, hw]
  cases hcache : alookup s.stubCache (t ++ ":" ++ w) with
  | some cached =>
    rw [hcache] at hunfold
    simp only at hunfold
    by_cases hver : cached.1 = worker.metadata.version
    · rw [if_pos hver] at hunfold
      constructor
      · intro e he hv
        injection he with he'
        subst he'
        rw [hunfold]
        exact ⟨rfl, rfl, rfl⟩
      · intro hstale
        exact absurd hver (hstale cached rfl)
    · rw [if_neg hver] at hunfold
      constructor
      · intro e he hv
        injection he with he'
        subst he'
        exact absurd hv hver
      · intro _
        rw [hunfold]
        exact ⟨rfl, rfl, rfl, rfl, _, rfl, fun bundles => rfl⟩
  | none =>
    rw [hcache] at hunfold
    simp only at hunfold
    constructor
    · intro e he
      cases he
    · intro _
      rw [hunfold]
      exact ⟨rfl, rfl, rfl, rfl, _, rfl, fun bundles => rfl⟩

/-- Witness for C5: on `stateCached` (cached stub `stub1` at version 1) the
fast path returns the cached stub without the loader; on `stateWithWorker`
(empty cache) the loader is consulted under `acme:api:v1` and the callback
succeeds on the stored bundle but fails the cold start on an empty bundle
store. -/
theorem getStub_contract_witness :
    (getStub (fun n => n) (some "out") defaultsEx stateCached "acme" "api").outcome =
      .ok "stub1" ∧
    (getStub (fun n => n) (some "out") defaultsEx stateCached "acme" "api").usedLoader =
      false ∧
    (getStub (fun n => n) (some "out") defaultsEx stateWithWorker "acme" "api").usedLoader =
      true ∧
    (getStub (fun n => n) (some "out") defaultsEx stateWithWorker "acme" "api").loaderName =
      some "acme:api:v1" ∧
    (∃ cb, (getStub (fun n => n) (some "out") defaultsEx
        stateWithWorker "acme" "api").coldStart = some cb ∧
      cb stateWithWorker.bundles =
        .ok { mainModule := bundleEx.mainModule, modules := bundleEx.modules
              compatibilityDate :=
                (mergeConfig defaultsEx tenantRecEx workerRecEx).compatibilityDate
              compatibilityFlags :=
                (mergeConfig defaultsEx tenantRecEx workerRecEx).compatibilityFlags
              env := (mergeConfig defaultsEx tenantRecEx workerRecEx).env
              limits := (mergeConfig defaultsEx tenantRecEx workerRecEx).limits
              globalOutbound := some "out"
              tails := (mergeConfig defaultsEx tenantRecEx workerRecEx).tails } ∧
      cb [] = .error (.missingBundle "acme" "api" 1)) := by
  obtain ⟨hfast, _⟩ := getStub_contract (fun n => n) (some "out") defaultsEx stateCached
    "acme" "api" tenantRecEx workerRecEx (by decide) (by decide)
  obtain ⟨_, hslow⟩ := getStub_contract (fun n => n) (some "out") defaultsEx stateWithWorker
    "acme" "api" tenantRecEx workerRecEx (by decide) (by decide)
  obtain ⟨hf1, hf2, _⟩ := hfast (1, "stub1") (by decide) (by decide)
  have hempty : ∀ e : Nat × WorkerStub,
      alookup stateWithWorker.stubCache ("acme" ++ ":" ++ "api") = some e →
        e.1 ≠ workerRecEx.metadata.version := by
    intro e he
    rw [show alookup stateWithWorker.stubCache ("acme" ++ ":" ++ "api") = none from by decide]
      at he
    cases he
  obtain ⟨hs1, hs2, _, _, cb, hcb, hcbeq⟩ := hslow hempty
  refine ⟨hf1, hf2, hs1, hs2, cb, hcb, ?_, ?_⟩
  · rw [hcbeq stateWithWorker.bundles]
    rw [show alookup stateWithWorker.bundles ("acme", "api", workerRecEx.metadata.version) =
      some bundleEx from by decide]
  · rw [hcbeq []]
    rfl

/-- C9, counterexample to the original claim. The claim reads: template
interpolation replaces, in each file, every occurrence of the declared
slot's double-brace marker with the caller-provided value - the verbatim
replacement `replaceAll`. It fails on the spec's own seed template (one
file `const x={{v}};`, slot `v`) when the caller provides the value
`"$$"`: verbatim replacement yields `const x=$$;`, but the source
interpolates via JS `String.replace`, which dollar-substitutes inside the
replacement (a double dollar inserts a single dollar), so
`interpolateTemplate` produces `const x=$;` instead of inserting the
provided value. -/
theorem interpolateTemplate_dollar_counterexample :
    replaceAll "const x=\x7b\x7bv\x7d\x7d;" (slotPattern "v") "$$" = "const x=$$;" ∧
    alookup (interpolateTemplate templateEx [("v", "$$")]) "src/index.ts" =
      some "const x=$;" ∧
    alookup (interpolateTemplate templateEx [("v", "$$")]) "src/index.ts" ≠
      some (replaceAll "const x=\x7b\x7bv\x7d\x7d;" (slotPattern "v") "$$") := by
  have ha : replaceAll "const x=\x7b\x7bv\x7d\x7d;" (slotPattern "v") "$$" = "const x=$$;" := by
    simp only [replaceAll, slotPattern_data]
    simp [replaceAllChars]
  have hb : alookup (interpolateTemplate templateEx [("v", "$$")]) "src/index.ts" =
      some "const x=$;" := by
    simp [interpolateTemplate, slotEffectiveValues, jsObjPut, alookup, templateEx, jsReplace,
      slotPattern_data, splitOnPat, jsReplaceSegs, dollarSubst, joinSep]
  refine ⟨ha, hb, ?_⟩
  rw [ha, hb]
  decide

/-- C9 (amended): template interpolation, `Platform.interpolateTemplate`.
For a template whose declared slot names are made of word characters
(the domain on which the regex the source builds from the un-escaped name
denotes the literal marker) and pairwise distinct, and whose effective
values - the caller's value with the slot's `default` as fallback - are
dollar-free, interpolation maps every file to the fold, slot by slot in
declaration order, of verbatim global replacement of the slot's marker by
its effective value. Moreover, for each declared slot, any string
decomposes into the segments between the marker occurrences (joining the
segments with the marker reconstructs it), and the verbatim replacement
joins the same segments with the effective value: every occurrence is
replaced. A dollar sign in a value is not inserted verbatim (see the
counterexample). The claim's `ValidationError` clause is unrepresentable:
`TemplateSlot.default` is a required field in the source data model, so a
fallback always exists and `interpolateTemplate` cannot fail. -/
theorem interpolateTemplate_amended (template : TemplateConfig) (sv : TemplateSlotValues)
    (_hnames : template.slots.all (fun s => wordCharsOnly s.name) = true)
    (hnd : (template.slots.map TemplateSlot.name).Nodup)
    (hdollar : ∀ slot ∈ template.slots, '$' ∉ ((alookup sv slot.name).getD slot.default).data)
    (path content : String) (hfile : alookup template.files path = some content) :
    alookup (interpolateTemplate template sv) path =
      some (template.slots.foldl
        (fun acc slot => replaceAll acc (slotPattern slot.name)
          ((alookup sv slot.name).getD slot.default)) content) ∧
    ∀ (s : String), ∀ slot ∈ template.slots,
      s = String.mk (joinSep ('\x7b' :: ('\x7b' :: (slot.name.data ++ ['\x7d', '\x7d'])))
        (splitOnPat '\x7b' ('\x7b' :: (slot.name.data ++ ['\x7d', '\x7d'])) s.data)) ∧
      replaceAll s (slotPattern slot.name) ((alookup sv slot.name).getD slot.default) =
        String.mk (joinSep ((alookup sv slot.name).getD slot.default).data
          (splitOnPat '\x7b' ('\x7b' :: (slot.name.data ++ ['\x7d', '\x7d'])) s.data)) := by
  constructor
  · have hmap : interpolateTemplate template sv =
        template.files.map (fun p => (p.1,
          (slotEffectiveValues template sv).foldl
            (fun acc nv => jsReplace acc (slotPattern nv.1) nv.2) p.2)) := rfl
    rw [hmap,
      alookup_map_values template.files
        (fun c => (slotEffectiveValues template sv).foldl
          (fun acc nv => jsReplace acc (slotPattern nv.1) nv.2) c) path,
      hfile]
    apply congrArg some
    rw [slotEffectiveValues_of_nodup template sv hnd]
    exact foldl_jsReplace_no_dollar sv template.slots hdollar content
  · intro s slot _hslot
    constructor
    · rw [joinSep_splitOnPat]
    · have hpat : replaceAll s (slotPattern slot.name)
          ((alookup sv slot.name).getD slot.default) =
          String.mk (replaceAllChars '\x7b' ('\x7b' :: (slot.name.data ++ ['\x7d', '\x7d']))
            ((alookup sv slot.name).getD slot.default).data s.data) := by
        simp only [replaceAll, slotPattern_data]
      rw [hpat]
      exact congrArg String.mk (replaceAllChars_eq_joinSep ..)

/-- Witness for C9: the two-slot template (one file
`const a={{x}}; const b={{y}};`): providing `x := "42"` and omitting `y`
yields `const a=42; const b=2;` - the provided value for `x`, the declared
default for `y`. -/
theorem interpolateTemplate_amended_witness :
    alookup (interpolateTemplate templateTwoSlotsEx [("x", "42")]) "src/index.ts" =
      some "const a=42; const b=2;" := by
  obtain ⟨h1, -⟩ := interpolateTemplate_amended templateTwoSlotsEx [("x", "42")]
    (by decide) (by decide) (by decide) "src/index.ts"
    "const a=\x7b\x7bx\x7d\x7d; const b=\x7b\x7by\x7d\x7d;" (by decide)
  rw [h1]
  simp only [templateTwoSlotsEx]
  simp only [List.foldl_cons, List.foldl_nil]
  simp [replaceAll, slotPattern_data, replaceAllChars, alookup]

/-- C10: the override merge of `createWorkerFromTemplate`. Only `env` is
merged key-by-key (template defaults overlaid by overrides, overrides
winning per key); `compatibilityDate`, `compatibilityFlags`, `limits` and
`tails` are each taken wholesale from the overrides when defined and
otherwise wholesale from the template defaults - in particular,
template-level flags and tails are replaced, never concatenated, when the
overrides supply them; `hostnames` comes from the overrides alone (the
template defaults record carries no hostnames field). The assembled config
is exactly what `createWorkerFromTemplate` passes to `createWorker`. -/
theorem createWorkerFromTemplate_merge (template : TemplateConfig)
    (opts : CreateFromTemplateOptions) (files : Files) :
    (∀ k, alookup ((templateWorkerConfig template opts files).env.getD []) k =
      ((alookup ((opts.overrides.bind TemplateOverrides.env).getD []) k).orElse (fun _ =>
        alookup ((template.defaults.bind WorkerDefaults.env).getD []) k))) ∧
    (templateWorkerConfig template opts files).compatibilityDate =
      (opts.overrides.bind TemplateOverrides.compatibilityDate).orElse
        (fun _ => template.defaults.bind WorkerDefaults.compatibilityDate) ∧
    (templateWorkerConfig template opts files).compatibilityFlags =
      (opts.overrides.bind TemplateOverrides.compatibilityFlags).orElse
        (fun _ => template.defaults.bind WorkerDefaults.compatibilityFlags) ∧
    (templateWorkerConfig template opts files).limits =
      (opts.overrides.bind TemplateOverrides.limits).orElse
        (fun _ => template.defaults.bind WorkerDefaults.limits) ∧
    (templateWorkerConfig template opts files).tails =
      (opts.overrides.bind TemplateOverrides.tails).orElse
        (fun _ => template.defaults.bind WorkerDefaults.tails) ∧
    (∀ fs, opts.overrides.bind TemplateOverrides.compatibilityFlags = some fs →
      (templateWorkerConfig template opts files).compatibilityFlags = some fs) ∧
    (∀ ts, opts.overrides.bind TemplateOverrides.tails = some ts →
      (templateWorkerConfig template opts files).tails = some ts) ∧
    (templateWorkerConfig template opts files).hostnames =
      opts.overrides.bind TemplateOverrides.hostnames ∧
    (∀ (build : Files → BuildResult) (now : String) (s : PlatformState)
        (tenantId templateId : String) (trec : TemplateRecord),
      alookup s.templates templateId = some trec →
      createWorkerFromTemplate build now s tenantId templateId opts =
        createWorker build now s tenantId
          (templateWorkerConfig trec.config opts (interpolateTemplate trec.config opts.slots))) := by
  refine ⟨?_, rfl, rfl, rfl, rfl, ?_, ?_, rfl, ?_⟩
  · intro k
    simp [templateWorkerConfig, alookup_jsMerge]
  · intro fs h
    show ((opts.overrides.bind TemplateOverrides.compatibilityFlags).orElse
      (fun _ => template.defaults.bind WorkerDefaults.compatibilityFlags)) = some fs
    rw [h]
    rfl
  · intro ts h
    show ((opts.overrides.bind TemplateOverrides.tails).orElse
      (fun _ => template.defaults.bind WorkerDefaults.tails)) = some ts
    rw [h]
    rfl
  · intro build now s tenantId templateId trec htrec
    unfold createWorkerFromTemplate
    rw [htrec]

/-- Witness for C10: with `templateWithDefaultsEx` and `overridesEx`, the
env merges per key (`F` from the overrides, `E` from the defaults), the
flags are wholly replaced by `["z"]` (not concatenated with the template's
`["x", "y"]`), the date falls back to the template default, and the
hostnames come from the overrides. -/
theorem createWorkerFromTemplate_merge_witness :
    alookup ((templateWorkerConfig templateWithDefaultsEx
      ⟨"w1", [("v", "42")], some overridesEx⟩ []).env.getD []) "F" = some "ov" ∧
    alookup ((templateWorkerConfig templateWithDefaultsEx
      ⟨"w1", [("v", "42")], some overridesEx⟩ []).env.getD []) "E" = some "tpl" ∧
    (templateWorkerConfig templateWithDefaultsEx
      ⟨"w1", [("v", "42")], some overridesEx⟩ []).compatibilityFlags = some ["z"] ∧
    (templateWorkerConfig templateWithDefaultsEx
      ⟨"w1", [("v", "42")], some overridesEx⟩ []).compatibilityDate =
      some "2020-02-02" ∧
    (templateWorkerConfig templateWithDefaultsEx
      ⟨"w1", [("v", "42")], some overridesEx⟩ []).hostnames = some ["h.example"] := by
  obtain ⟨henv, hdate, hflags, hlimits, htails, hrepl, _, hhost, _⟩ :=
    createWorkerFromTemplate_merge templateWithDefaultsEx
      ⟨"w1", [("v", "42")], some overridesEx⟩ []
  exact ⟨(henv "F").trans (by decide), (henv "E").trans (by decide),
    hrepl ["z"] (by decide), hdate.trans (by decide), hhost.trans (by decide)⟩

end PlatformSDK
